import Mathlib

/-!
Verification of the generative-AI capability abstraction of the
`remodel-decisions` repository (src/ai): the JSON-schema normalizers of the
provider adapters, the tool-call canonicalizers, the structured-with-tools
result assembly, the two-phase structured generation protocol of the Worker AI
adapter, the capability dispatcher, the model advisor and the progress stream.

JavaScript runtime values that flow through these functions are modelled by the
`Json` inductive below (JSON trees; numbers are modelled as integers, which is
sufficient because none of the verified code paths computes with numeric
values).  JavaScript objects are ordered association lists; `JSON.parse ∘
JSON.stringify` (the deep-copy idiom) is the identity on these values, so the
pure normalizer is applied directly to the argument value; the heap model
further below accounts for the copy and for mutation.
-/

/-- Model of a JavaScript/JSON runtime value. -/
inductive Json where
  | null
  | bool (b : Bool)
  | num (n : Int)
  | str (s : String)
  | arr (elems : List Json)
  | obj (entries : List (String × Json))
deriving Repr

namespace Json

/-- JavaScript truthiness of a value (`if (x)`).  `null`, `false`, `0` and the
empty string are falsy; every object and array is truthy. -/
def truthy : Json → Bool
  | .null => false
  | .bool b => b
  | .num n => n != 0
  | .str s => s ≠ ""
  | .arr _ => true
  | .obj _ => true

/-- First-match lookup of a key in an object's entry list
(JavaScript property read `o[k]`; `none` models `undefined`). -/
def lookupKey (kvs : List (String × Json)) (k : String) : Option Json :=
  match kvs with
  | [] => none
  | (k', v) :: rest => if k' = k then some v else lookupKey rest k

/-- The keys of an object's entry list. -/
def keysOf (kvs : List (String × Json)) : List String :=
  kvs.map Prod.fst

end Json

/-- Keys deleted by `cleanOpenAISchema` (src/ai/providers/openai.ts):
`delete obj["~standard"]; delete obj["$schema"]; delete obj["def"];`. -/
def openAIBannedKeys : List String := ["~standard", "$schema", "def"]

/-- Keys deleted by `cleanWorkerAISchema` (src/ai/providers/worker-ai.ts):
`~standard`, `$schema`, `additionalProperties`, `def`. -/
def workerAIBannedKeys : List String :=
  ["~standard", "$schema", "additionalProperties", "def"]

/-- Keys deleted by the `clean` closure of `cleanGeminiParameters`
(src/ai/providers/gemini.ts): same set as the Worker AI normalizer. -/
def geminiBannedKeys : List String :=
  ["~standard", "$schema", "additionalProperties", "def"]

mutual

/-- The recursive `clean` closure shared (up to the banned-key set) by
`cleanOpenAISchema`, `cleanWorkerAISchema` and `cleanGeminiParameters`:
non-objects are returned unchanged (`typeof obj !== "object"` returns early;
a JavaScript array carries none of the deleted keys and is not recursed into),
and on an object the banned keys are deleted, then each value of a truthy
`properties` member and a truthy `items` member is cleaned in place. -/
def cleanNode (banned : List String) : Json → Json
  | .obj kvs => .obj (cleanEntries banned kvs)
  | v => v

/-- Entry-wise action of `cleanNode` on an object's entries. -/
def cleanEntries (banned : List String) :
    List (String × Json) → List (String × Json)
  | [] => []
  | (k, v) :: rest =>
    if k ∈ banned then cleanEntries banned rest
    else if k = "properties" ∧ v.truthy = true then
      (k, cleanProps banned v) :: cleanEntries banned rest
    else if k = "items" ∧ v.truthy = true then
      (k, cleanNode banned v) :: cleanEntries banned rest
    else (k, v) :: cleanEntries banned rest

/-- `for (const key in obj.properties) clean(obj.properties[key])`: on an
object each property value is cleaned; on an array each element is cleaned
(`for..in` over its indices); on a string the iterated one-character values
are untouched by `clean`; other values have no enumerable keys. -/
def cleanProps (banned : List String) : Json → Json
  | .obj kvs => .obj (cleanPropEntries banned kvs)
  | .arr xs => .arr (cleanElems banned xs)
  | v => v

/-- Value-wise cleaning of a `properties` map's entries. -/
def cleanPropEntries (banned : List String) :
    List (String × Json) → List (String × Json)
  | [] => []
  | (k, v) :: rest => (k, cleanNode banned v) :: cleanPropEntries banned rest

/-- Element-wise cleaning of a `properties` array's elements. -/
def cleanElems (banned : List String) : List Json → List Json
  | [] => []
  | v :: rest => cleanNode banned v :: cleanElems banned rest

end

/-- `cleanOpenAISchema` (src/ai/providers/openai.ts).  The function first takes
`JSON.parse(JSON.stringify(schema))` — the identity on JSON values — and then
runs the mutating `clean` on the copy. -/
def cleanOpenAISchema (schema : Json) : Json :=
  cleanNode openAIBannedKeys schema

/-- `cleanWorkerAISchema` (src/ai/providers/worker-ai.ts). -/
def cleanWorkerAISchema (schema : Json) : Json :=
  cleanNode workerAIBannedKeys schema

example : cleanOpenAISchema (.obj [("$schema", .str "x"), ("type", .str "object")])
    = .obj [("type", .str "object")] := by rfl

example :
    cleanWorkerAISchema
      (.obj [("type", .str "object"),
             ("additionalProperties", .bool false),
             ("properties",
               .obj [("a", .obj [("type", .str "string"), ("$schema", .str "y")])])])
    = .obj [("type", .str "object"),
            ("properties", .obj [("a", .obj [("type", .str "string")])])] := by rfl

theorem truthy_cleanNode (banned : List String) (v : Json) :
    (cleanNode banned v).truthy = v.truthy := by
  cases v <;> rfl

theorem truthy_cleanProps (banned : List String) (v : Json) :
    (cleanProps banned v).truthy = v.truthy := by
  cases v <;> rfl

mutual

theorem cleanNode_idem (banned : List String) :
    ∀ v, cleanNode banned (cleanNode banned v) = cleanNode banned v
  | .obj kvs => congrArg Json.obj (cleanEntries_idem banned kvs)
  | .null => rfl
  | .bool _ => rfl
  | .num _ => rfl
  | .str _ => rfl
  | .arr _ => rfl

theorem cleanEntries_idem (banned : List String) :
    ∀ kvs, cleanEntries banned (cleanEntries banned kvs) = cleanEntries banned kvs
  | [] => rfl
  | (k, v) :: rest => by
    by_cases hb : k ∈ banned
    · simp only [cleanEntries, if_pos hb]
      exact cleanEntries_idem banned rest
    · by_cases hp : k = "properties" ∧ v.truthy = true
      · have ht : (cleanProps banned v).truthy = true := by
          rw [truthy_cleanProps]; exact hp.2
        have hc : k = "properties" ∧ (cleanProps banned v).truthy = true :=
          ⟨hp.1, ht⟩
        simp only [cleanEntries, if_neg hb, if_pos hp, if_pos hc]
        rw [cleanProps_idem banned v, cleanEntries_idem banned rest]
      · by_cases hi : k = "items" ∧ v.truthy = true
        · have ht : (cleanNode banned v).truthy = true := by
            rw [truthy_cleanNode]; exact hi.2
          have hp' : ¬(k = "properties" ∧ (cleanNode banned v).truthy = true) := by
            intro h; exact hp ⟨h.1, by rw [← truthy_cleanNode banned v]; exact h.2⟩
          have hc : k = "items" ∧ (cleanNode banned v).truthy = true :=
            ⟨hi.1, ht⟩
          simp only [cleanEntries, if_neg hb, if_neg hp, if_pos hi, if_neg hp',
            if_pos hc]
          rw [cleanNode_idem banned v, cleanEntries_idem banned rest]
        · simp only [cleanEntries, if_neg hb, if_neg hp, if_neg hi]
          rw [cleanEntries_idem banned rest]

theorem cleanProps_idem (banned : List String) :
    ∀ v, cleanProps banned (cleanProps banned v) = cleanProps banned v
  | .obj kvs => congrArg Json.obj (cleanPropEntries_idem banned kvs)
  | .arr xs => congrArg Json.arr (cleanElems_idem banned xs)
  | .null => rfl
  | .bool _ => rfl
  | .num _ => rfl
  | .str _ => rfl

theorem cleanPropEntries_idem (banned : List String) :
    ∀ kvs, cleanPropEntries banned (cleanPropEntries banned kvs)
      = cleanPropEntries banned kvs
  | [] => rfl
  | (k, v) :: rest => by
    simp only [cleanPropEntries]
    rw [cleanNode_idem banned v, cleanPropEntries_idem banned rest]

theorem cleanElems_idem (banned : List String) :
    ∀ xs, cleanElems banned (cleanElems banned xs) = cleanElems banned xs
  | [] => rfl
  | v :: rest => by
    simp only [cleanElems]
    rw [cleanNode_idem banned v, cleanElems_idem banned rest]

end

/-- C2: for every backend's schema normalizer (`cleanOpenAISchema` of the
OpenAI adapter, `cleanWorkerAISchema` of the Worker AI adapter) and every
nested schema `s`, normalization is idempotent:
`normalize (normalize s) = normalize s`. -/
theorem schema_normalizers_idempotent : ∀ s : Json,
    cleanOpenAISchema (cleanOpenAISchema s) = cleanOpenAISchema s ∧
    cleanWorkerAISchema (cleanWorkerAISchema s) = cleanWorkerAISchema s :=
  fun s => ⟨cleanNode_idem openAIBannedKeys s, cleanNode_idem workerAIBannedKeys s⟩

theorem cleanProps_falsy (banned : List String) (v : Json)
    (h : v.truthy = false) : cleanProps banned v = v := by
  cases v <;> first | rfl | simp [Json.truthy] at h

theorem cleanNode_falsy (banned : List String) (v : Json)
    (h : v.truthy = false) : cleanNode banned v = v := by
  cases v <;> first | rfl | simp [Json.truthy] at h

/-- A navigation step through the nesting structure that the normalizers
recurse into: into the schema of a named property (through the `properties`
map) or into the `items` schema. -/
inductive SPath where
  | propStep (name : String)
  | itemsStep

/-- One navigation step on a schema value. -/
def getStep (v : Json) : SPath → Option Json
  | .propStep n =>
    match v with
    | .obj kvs =>
      match Json.lookupKey kvs "properties" with
      | some (.obj pkvs) => Json.lookupKey pkvs n
      | _ => none
    | _ => none
  | .itemsStep =>
    match v with
    | .obj kvs => Json.lookupKey kvs "items"
    | _ => none

/-- Navigation along a path of steps; the nodes reachable this way are
exactly the nesting levels the normalizers visit. -/
def getPath (v : Json) : List SPath → Option Json
  | [] => some v
  | p :: ps =>
    match getStep v p with
    | some w => getPath w ps
    | none => none

theorem lookupKey_cleanEntries (banned : List String) (k : String) :
    ∀ kvs, Json.lookupKey (cleanEntries banned kvs) k =
      if k ∈ banned then none
      else if k = "properties" then
        (Json.lookupKey kvs k).map (cleanProps banned)
      else if k = "items" then
        (Json.lookupKey kvs k).map (cleanNode banned)
      else Json.lookupKey kvs k := by
  intro kvs
  induction kvs with
  | nil =>
    simp only [cleanEntries, Json.lookupKey]
    split <;> simp
  | cons hd rest ih =>
    obtain ⟨k', v⟩ := hd
    by_cases hb : k' ∈ banned
    · rw [cleanEntries, if_pos hb, ih]
      by_cases hkk : k' = k
      · subst hkk
        simp [Json.lookupKey, hb]
      · simp [Json.lookupKey, hkk]
    · by_cases hp : k' = "properties" ∧ v.truthy = true
      · rw [cleanEntries, if_neg hb, if_pos hp]
        by_cases hkk : k' = k
        · subst hkk
          obtain ⟨hkp, htr⟩ := hp
          subst hkp
          simp [Json.lookupKey, hb]
        · simp only [Json.lookupKey, if_neg hkk, ih]
      · by_cases hi : k' = "items" ∧ v.truthy = true
        · rw [cleanEntries, if_neg hb, if_neg hp, if_pos hi]
          by_cases hkk : k' = k
          · subst hkk
            obtain ⟨hki, htr⟩ := hi
            subst hki
            simp [Json.lookupKey, hb]
          · simp only [Json.lookupKey, if_neg hkk, ih]
        · rw [cleanEntries, if_neg hb, if_neg hp, if_neg hi]
          by_cases hkk : k' = k
          · subst hkk
            rw [Json.lookupKey, if_pos rfl, Json.lookupKey, if_pos rfl,
              if_neg hb]
            by_cases hkp : k' = "properties"
            · have hf : v.truthy = false := by
                cases h : v.truthy
                · rfl
                · exact absurd ⟨hkp, h⟩ hp
              rw [if_pos hkp, Option.map_some', cleanProps_falsy banned v hf]
            · by_cases hki : k' = "items"
              · have hf : v.truthy = false := by
                  cases h : v.truthy
                  · rfl
                  · exact absurd ⟨hki, h⟩ hi
                rw [if_neg hkp, if_pos hki, Option.map_some',
                  cleanNode_falsy banned v hf]
              · rw [if_neg hkp, if_neg hki]
          · rw [Json.lookupKey, if_neg hkk, Json.lookupKey, if_neg hkk, ih]

theorem lookupKey_cleanPropEntries (banned : List String) (k : String) :
    ∀ pkvs, Json.lookupKey (cleanPropEntries banned pkvs) k =
      (Json.lookupKey pkvs k).map (cleanNode banned) := by
  intro pkvs
  induction pkvs with
  | nil => rfl
  | cons hd rest ih =>
    obtain ⟨k', v⟩ := hd
    by_cases hkk : k' = k
    · simp [cleanPropEntries, Json.lookupKey, hkk]
    · simp [cleanPropEntries, Json.lookupKey, hkk, ih]

theorem getStep_cleanNode (banned : List String)
    (hprops : "properties" ∉ banned) (hitems : "items" ∉ banned)
    (v : Json) (p : SPath) :
    getStep (cleanNode banned v) p = (getStep v p).map (cleanNode banned) := by
  cases p with
  | itemsStep =>
    cases v with
    | obj kvs =>
      rw [cleanNode]
      simp only [getStep]
      rw [lookupKey_cleanEntries, if_neg hitems, if_neg (by decide), if_pos rfl]
    | null => rfl
    | bool b => rfl
    | num n => rfl
    | str s => rfl
    | arr xs => rfl
  | propStep n =>
    cases v with
    | obj kvs =>
      rw [cleanNode]
      simp only [getStep]
      rw [lookupKey_cleanEntries, if_neg hprops, if_pos rfl]
      cases hl : Json.lookupKey kvs "properties" with
      | none => rfl
      | some p0 =>
        cases p0 with
        | obj pkvs =>
          simp only [Option.map_some', cleanProps]
          rw [lookupKey_cleanPropEntries]
        | null => rfl
        | bool b => rfl
        | num m => rfl
        | str s => rfl
        | arr xs => rfl
    | null => rfl
    | bool b => rfl
    | num n' => rfl
    | str s => rfl
    | arr xs => rfl

theorem getPath_cleanNode (banned : List String)
    (hprops : "properties" ∉ banned) (hitems : "items" ∉ banned) :
    ∀ (path : List SPath) (v : Json),
      getPath (cleanNode banned v) path
        = (getPath v path).map (cleanNode banned) := by
  intro path
  induction path with
  | nil => intro v; rfl
  | cons p ps ih =>
    intro v
    simp only [getPath, getStep_cleanNode banned hprops hitems]
    cases hs : getStep v p with
    | none => rfl
    | some w =>
      simp only [Option.map_some']
      exact ih w

theorem not_mem_keys_cleanEntries (banned : List String) (k : String)
    (hb : k ∈ banned) :
    ∀ kvs, k ∉ Json.keysOf (cleanEntries banned kvs) := by
  intro kvs
  induction kvs with
  | nil => simp [cleanEntries, Json.keysOf]
  | cons hd rest ih =>
    obtain ⟨k', v⟩ := hd
    by_cases hbk : k' ∈ banned
    · rw [cleanEntries, if_pos hbk]
      exact ih
    · have hne : k ≠ k' := fun h => hbk (h ▸ hb)
      by_cases hp : k' = "properties" ∧ v.truthy = true
      · rw [cleanEntries, if_neg hbk, if_pos hp]
        simp only [Json.keysOf, List.map_cons, List.mem_cons]
        rintro (h | h)
        · exact hne h
        · exact ih h
      · by_cases hi : k' = "items" ∧ v.truthy = true
        · rw [cleanEntries, if_neg hbk, if_neg hp, if_pos hi]
          simp only [Json.keysOf, List.map_cons, List.mem_cons]
          rintro (h | h)
          · exact hne h
          · exact ih h
        · rw [cleanEntries, if_neg hbk, if_neg hp, if_neg hi]
          simp only [Json.keysOf, List.map_cons, List.mem_cons]
          rintro (h | h)
          · exact hne h
          · exact ih h

theorem mem_keys_cleanEntries (banned : List String) (k : String)
    (hnb : k ∉ banned) :
    ∀ kvs, k ∈ Json.keysOf kvs → k ∈ Json.keysOf (cleanEntries banned kvs) := by
  intro kvs
  induction kvs with
  | nil => simp [Json.keysOf]
  | cons hd rest ih =>
    obtain ⟨k', v⟩ := hd
    simp only [Json.keysOf, List.map_cons, List.mem_cons]
    rintro (h | h)
    · subst h
      rw [cleanEntries, if_neg hnb]
      by_cases hp : k = "properties" ∧ v.truthy = true
      · rw [if_pos hp]; simp [Json.keysOf]
      · by_cases hi : k = "items" ∧ v.truthy = true
        · rw [if_neg hp, if_pos hi]; simp [Json.keysOf]
        · rw [if_neg hp, if_neg hi]; simp [Json.keysOf]
    · have hrest := ih h
      by_cases hbk : k' ∈ banned
      · rw [cleanEntries, if_pos hbk]; exact hrest
      · rw [cleanEntries, if_neg hbk]
        by_cases hp : k' = "properties" ∧ v.truthy = true
        · rw [if_pos hp]
          simp only [Json.keysOf, List.map_cons, List.mem_cons]
          exact Or.inr hrest
        · by_cases hi : k' = "items" ∧ v.truthy = true
          · rw [if_neg hp, if_pos hi]
            simp only [Json.keysOf, List.map_cons, List.mem_cons]
            exact Or.inr hrest
          · rw [if_neg hp, if_neg hi]
            simp only [Json.keysOf, List.map_cons, List.mem_cons]
            exact Or.inr hrest

theorem cleanNode_strips_at_path (banned : List String)
    (hprops : "properties" ∉ banned) (hitems : "items" ∉ banned)
    (s : Json) (path : List SPath) (kvs : List (String × Json)) (k : String)
    (hget : getPath (cleanNode banned s) path = some (.obj kvs))
    (hk : k ∈ banned) : k ∉ Json.keysOf kvs := by
  rw [getPath_cleanNode banned hprops hitems] at hget
  cases hw : getPath s path with
  | none => rw [hw] at hget; exact absurd hget (by simp)
  | some w =>
    rw [hw, Option.map_some', Option.some_inj] at hget
    cases w with
    | obj kvs0 =>
      rw [cleanNode] at hget
      cases hget
      exact not_mem_keys_cleanEntries banned k hk kvs0
    | null => exact absurd hget (by simp [cleanNode])
    | bool b => exact absurd hget (by simp [cleanNode])
    | num n => exact absurd hget (by simp [cleanNode])
    | str s' => exact absurd hget (by simp [cleanNode])
    | arr xs => exact absurd hget (by simp [cleanNode])

theorem cleanNode_keeps_at_path (banned : List String)
    (hprops : "properties" ∉ banned) (hitems : "items" ∉ banned)
    (s : Json) (path : List SPath) (kvs : List (String × Json)) (k : String)
    (hget : getPath s path = some (.obj kvs))
    (hnb : k ∉ banned) (hmem : k ∈ Json.keysOf kvs) :
    ∃ kvs', getPath (cleanNode banned s) path = some (.obj kvs')
      ∧ k ∈ Json.keysOf kvs' := by
  refine ⟨cleanEntries banned kvs, ?_, mem_keys_cleanEntries banned k hnb kvs hmem⟩
  rw [getPath_cleanNode banned hprops hitems, hget, Option.map_some', cleanNode]

/-- The load-bearing schema keys the specification says are never removed. -/
def loadBearingKeys : List String :=
  ["type", "properties", "items", "required", "enum", "description"]

theorem loadBearing_not_banned {k : String} (h : k ∈ loadBearingKeys) :
    k ∉ openAIBannedKeys ∧ k ∉ workerAIBannedKeys := by
  simp only [loadBearingKeys, List.mem_cons, List.not_mem_nil, or_false] at h
  rcases h with rfl | rfl | rfl | rfl | rfl | rfl <;> exact ⟨by decide, by decide⟩

/-- C3: for every input schema, each backend's normalizer removes every
backend-forbidden key at every nesting level reachable through object
property maps and array item schemas, and never removes the load-bearing
keys `type`, `properties`, `items`, `required`, `enum`, `description`
present in the input at any such level.  (That the result is a deep copy
not aliasing the input is the frame property verified separately for the
claim about non-mutation.) -/
theorem schema_normalizers_strip_forbidden_keep_load_bearing :
    ∀ (s : Json) (path : List SPath),
      (∀ kvs k, getPath (cleanOpenAISchema s) path = some (.obj kvs) →
        k ∈ openAIBannedKeys → k ∉ Json.keysOf kvs) ∧
      (∀ kvs k, getPath s path = some (.obj kvs) → k ∈ loadBearingKeys →
        k ∈ Json.keysOf kvs →
        ∃ kvs', getPath (cleanOpenAISchema s) path = some (.obj kvs')
          ∧ k ∈ Json.keysOf kvs') ∧
      (∀ kvs k, getPath (cleanWorkerAISchema s) path = some (.obj kvs) →
        k ∈ workerAIBannedKeys → k ∉ Json.keysOf kvs) ∧
      (∀ kvs k, getPath s path = some (.obj kvs) → k ∈ loadBearingKeys →
        k ∈ Json.keysOf kvs →
        ∃ kvs', getPath (cleanWorkerAISchema s) path = some (.obj kvs')
          ∧ k ∈ Json.keysOf kvs') := by
  intro s path
  refine ⟨?_, ?_, ?_, ?_⟩
  · intro kvs k hget hk
    exact cleanNode_strips_at_path openAIBannedKeys (by decide) (by decide)
      s path kvs k hget hk
  · intro kvs k hget hlb hmem
    exact cleanNode_keeps_at_path openAIBannedKeys (by decide) (by decide)
      s path kvs k hget (loadBearing_not_banned hlb).1 hmem
  · intro kvs k hget hk
    exact cleanNode_strips_at_path workerAIBannedKeys (by decide) (by decide)
      s path kvs k hget hk
  · intro kvs k hget hlb hmem
    exact cleanNode_keeps_at_path workerAIBannedKeys (by decide) (by decide)
      s path kvs k hget (loadBearing_not_banned hlb).2 hmem

/-- A concrete nested schema used to witness the normalizer theorems. -/
def sampleSchema : Json :=
  .obj [("$schema", .str "https://json-schema.org/draft-07/schema"),
        ("type", .str "object"),
        ("properties",
          .obj [("a", .obj [("type", .str "string"),
                            ("$schema", .str "x"),
                            ("additionalProperties", .bool true),
                            ("description", .str "field a")])]),
        ("required", .arr [.str "a"])]

theorem schema_normalizers_strip_keep_witness :
    "$schema" ∉ Json.keysOf [("type", Json.str "string"),
      ("additionalProperties", Json.bool true),
      ("description", Json.str "field a")]
    ∧ (∃ kvs', getPath (cleanOpenAISchema sampleSchema) [SPath.propStep "a"]
        = some (.obj kvs') ∧ "description" ∈ Json.keysOf kvs') := by
  constructor
  · exact (schema_normalizers_strip_forbidden_keep_load_bearing sampleSchema
      [SPath.propStep "a"]).1
      [("type", Json.str "string"), ("additionalProperties", Json.bool true),
        ("description", Json.str "field a")]
      "$schema" (by rfl) (by decide)
  · exact (schema_normalizers_strip_forbidden_keep_load_bearing sampleSchema
      [SPath.propStep "a"]).2.1
      [("type", Json.str "string"), ("$schema", Json.str "x"),
        ("additionalProperties", Json.bool true),
        ("description", Json.str "field a")]
      "description" (by rfl) (by decide) (by decide)

/-- The three provider adapters behind the dispatcher (src/ai/index.ts). -/
inductive Provider where
  | gemini
  | openai
  | workerAI
deriving Repr, DecidableEq

/-- `options.provider || "worker-ai"`: JavaScript or-default (the empty
string is falsy and also falls back to the default). -/
def jsOrDefault (o : Option String) (d : String) : String :=
  match o with
  | some s => if s = "" then d else s
  | none => d

/-- Adapter selected by the `switch` in the dispatcher's `generateText`
(src/ai/index.ts): `case "gemini"`, `case "openai"`, and
`case "worker-ai": default:` both reaching the Worker AI adapter. -/
def generateTextProvider (provider : Option String) : Provider :=
  let p := jsOrDefault provider "worker-ai"
  if p = "gemini" then .gemini else if p = "openai" then .openai else .workerAI

/-- Adapter selected by the dispatcher's `generateStructured`. -/
def generateStructuredProvider (provider : Option String) : Provider :=
  let p := jsOrDefault provider "worker-ai"
  if p = "gemini" then .gemini else if p = "openai" then .openai else .workerAI

/-- Adapter selected by the dispatcher's `generateEmbeddings`. -/
def generateEmbeddingsProvider (provider : Option String) : Provider :=
  let p := jsOrDefault provider "worker-ai"
  if p = "gemini" then .gemini else if p = "openai" then .openai else .workerAI

/-- Adapter selected by the dispatcher's `generateVision`. -/
def generateVisionProvider (provider : Option String) : Provider :=
  let p := jsOrDefault provider "worker-ai"
  if p = "gemini" then .gemini else if p = "openai" then .openai else .workerAI

/-- Adapter selected by the dispatcher's `generateVisionStructured`. -/
def generateVisionStructuredProvider (provider : Option String) : Provider :=
  let p := jsOrDefault provider "worker-ai"
  if p = "gemini" then .gemini else if p = "openai" then .openai else .workerAI

/-- Adapter selected by the dispatcher's `generateWithTools`. -/
def generateWithToolsProvider (provider : Option String) : Provider :=
  let p := jsOrDefault provider "worker-ai"
  if p = "gemini" then .gemini else if p = "openai" then .openai else .workerAI

/-- Adapter selected by the dispatcher's `generateStructuredWithTools`. -/
def generateStructuredWithToolsProvider (provider : Option String) : Provider :=
  let p := jsOrDefault provider "worker-ai"
  if p = "gemini" then .gemini else if p = "openai" then .openai else .workerAI

/-- C6: every dispatcher operation selects the Worker AI adapter when the
provider option is absent, and any selector other than "gemini", "openai"
or "worker-ai" also dispatches to the Worker AI adapter instead of failing. -/
theorem dispatcher_defaults_and_falls_back_to_worker_ai :
    ∀ s : String, s ∉ ["gemini", "openai", "worker-ai"] →
      (generateTextProvider none = .workerAI
        ∧ generateTextProvider (some s) = .workerAI)
      ∧ (generateStructuredProvider none = .workerAI
        ∧ generateStructuredProvider (some s) = .workerAI)
      ∧ (generateEmbeddingsProvider none = .workerAI
        ∧ generateEmbeddingsProvider (some s) = .workerAI)
      ∧ (generateVisionProvider none = .workerAI
        ∧ generateVisionProvider (some s) = .workerAI)
      ∧ (generateVisionStructuredProvider none = .workerAI
        ∧ generateVisionStructuredProvider (some s) = .workerAI)
      ∧ (generateWithToolsProvider none = .workerAI
        ∧ generateWithToolsProvider (some s) = .workerAI)
      ∧ (generateStructuredWithToolsProvider none = .workerAI
        ∧ generateStructuredWithToolsProvider (some s) = .workerAI) := by
  intro s hs
  simp only [List.mem_cons, List.not_mem_nil, or_false, not_or] at hs
  obtain ⟨hg, ho, _⟩ := hs
  have key : ∀ p : Option String, p = some s ∨ p = none →
      (let q := jsOrDefault p "worker-ai"
        if q = "gemini" then Provider.gemini
        else if q = "openai" then Provider.openai
        else Provider.workerAI) = Provider.workerAI := by
    rintro p (rfl | rfl)
    · show (if (if s = "" then "worker-ai" else s) = "gemini" then Provider.gemini
        else if (if s = "" then "worker-ai" else s) = "openai" then Provider.openai
        else Provider.workerAI) = Provider.workerAI
      by_cases he : s = ""
      · simp [he]
      · simp [he, hg, ho]
    · rfl
  exact ⟨⟨key none (Or.inr rfl), key (some s) (Or.inl rfl)⟩,
    ⟨key none (Or.inr rfl), key (some s) (Or.inl rfl)⟩,
    ⟨key none (Or.inr rfl), key (some s) (Or.inl rfl)⟩,
    ⟨key none (Or.inr rfl), key (some s) (Or.inl rfl)⟩,
    ⟨key none (Or.inr rfl), key (some s) (Or.inl rfl)⟩,
    ⟨key none (Or.inr rfl), key (some s) (Or.inl rfl)⟩,
    ⟨key none (Or.inr rfl), key (some s) (Or.inl rfl)⟩⟩

theorem dispatcher_falls_back_witness :
    generateTextProvider (some "mistral") = .workerAI
    ∧ generateStructuredWithToolsProvider none = .workerAI := by
  have h := dispatcher_defaults_and_falls_back_to_worker_ai "mistral" (by decide)
  exact ⟨h.1.2, h.2.2.2.2.2.2.1⟩

/-- The `type` union of `StreamEvent` (src/ai/utils/streaming.ts). -/
def streamEventTypes : List String :=
  ["progress", "data", "error", "complete", "plan",
    "pillar_start", "pillar_progress", "pillar_complete"]

/-- The frame-type set asserted by the specification's wire-envelope clause
(§6): `phase_start`/`phase_progress`/`phase_complete` instead of the
`pillar_*` names the source actually uses. -/
def specClaimedEventTypes : List String :=
  ["progress", "data", "error", "complete", "plan",
    "phase_start", "phase_progress", "phase_complete"]

/-- `StreamEvent` (src/ai/utils/streaming.ts); `ty` models the reserved
field name `type`.  `none` models an absent optional field. -/
structure StreamEvent where
  ty : String
  message : Option String := none
  data : Option Json := none
  timestamp : Option String := none
  pillar_id : Option String := none
  pillar_name : Option String := none

/-- The JSON object serialized by `send`:
`JSON.stringify({ ...event, timestamp })` where
`timestamp = new Date().toISOString()` (here the parameter `now`), which
always overrides any timestamp carried by the event. -/
def sendFrame (e : StreamEvent) (now : String) : Json :=
  .obj ([("type", Json.str e.ty)]
    ++ (match e.message with | some m => [("message", Json.str m)] | none => [])
    ++ (match e.data with | some d => [("data", d)] | none => [])
    ++ (match e.pillar_id with
        | some i => [("pillar_id", Json.str i)] | none => [])
    ++ (match e.pillar_name with
        | some n => [("pillar_name", Json.str n)] | none => [])
    ++ [("timestamp", Json.str now)])

/-- Event built by `sendProgress`. -/
def sendProgressEvent (message : String) : StreamEvent :=
  { ty := "progress", message := some message }

/-- Event built by `sendData`. -/
def sendDataEvent (data : Json) (message : Option String) : StreamEvent :=
  { ty := "data", data := some data, message := message }

/-- Event built by `sendError` (an `Error` argument contributes its
`message` string). -/
def sendErrorEvent (message : String) : StreamEvent :=
  { ty := "error", message := some message }

/-- Event built by `complete`: with truthy data the data frame, otherwise
the "Stream completed" message frame. -/
def completeEvent (data : Option Json) : StreamEvent :=
  if (match data with | some d => d.truthy | none => false) then
    { ty := "complete", data := data }
  else
    { ty := "complete", message := some "Stream completed" }

/-- Event built by `sendPlan`. -/
def sendPlanEvent (plan : Json) : StreamEvent :=
  { ty := "plan", data := some plan }

/-- Event built by `sendPillarStart`. -/
def sendPillarStartEvent (pillarId pillarName : String)
    (message : Option String) : StreamEvent :=
  { ty := "pillar_start", pillar_id := some pillarId,
    pillar_name := some pillarName, message := message }

/-- Event built by `sendPillarProgress`. -/
def sendPillarProgressEvent (pillarId pillarName : String) (progress : Int)
    (message : Option String) : StreamEvent :=
  { ty := "pillar_progress", pillar_id := some pillarId,
    pillar_name := some pillarName,
    data := some (.obj [("progress", .num progress)]), message := message }

/-- Event built by `sendPillarComplete`. -/
def sendPillarCompleteEvent (pillarId pillarName : String)
    (findings : List String) (message : Option String) : StreamEvent :=
  { ty := "pillar_complete", pillar_id := some pillarId,
    pillar_name := some pillarName,
    data := some (.obj [("findings", .arr (findings.map Json.str))]),
    message := message }

/-- C9 counterexample: the frame emitted by `sendPillarStart` carries type
`pillar_start`, which is not in the set of types the claim asserts
(`phase_start` etc.); so the claim as stated is false on the code. -/
theorem progress_stream_claimed_types_counterexample :
    sendFrame (sendPillarStartEvent "p1" "Pillar One" none)
        "2026-01-01T00:00:00.000Z"
      = .obj [("type", .str "pillar_start"),
              ("pillar_id", .str "p1"),
              ("pillar_name", .str "Pillar One"),
              ("timestamp", .str "2026-01-01T00:00:00.000Z")]
    ∧ "pillar_start" ∉ specClaimedEventTypes := by
  exact ⟨rfl, by decide⟩

/-- C9 (amended): every frame emitted by the progress stream is a single
JSON object whose `type` is drawn from {progress, data, error, complete,
plan, pillar_start, pillar_progress, pillar_complete} and whose `timestamp`
is the `toISOString` value taken at emission; message, data, pillar_id and
pillar_name are optional; and every emitter helper produces an event of one
of these types. -/
theorem progress_stream_frames_single_json_with_valid_type :
    (∀ (e : StreamEvent) (now : String), e.ty ∈ streamEventTypes →
      ∃ entries, sendFrame e now = .obj entries
        ∧ Json.lookupKey entries "type" = some (.str e.ty)
        ∧ Json.lookupKey entries "timestamp" = some (.str now))
    ∧ (∀ (msg pid pname : String) (d : Json) (progress : Int)
        (findings : List String) (mo : Option String) (dopt : Option Json),
      (sendProgressEvent msg).ty ∈ streamEventTypes
      ∧ (sendDataEvent d mo).ty ∈ streamEventTypes
      ∧ (sendErrorEvent msg).ty ∈ streamEventTypes
      ∧ (completeEvent dopt).ty ∈ streamEventTypes
      ∧ (sendPlanEvent d).ty ∈ streamEventTypes
      ∧ (sendPillarStartEvent pid pname mo).ty ∈ streamEventTypes
      ∧ (sendPillarProgressEvent pid pname progress mo).ty ∈ streamEventTypes
      ∧ (sendPillarCompleteEvent pid pname findings mo).ty
          ∈ streamEventTypes) := by
  constructor
  · intro e now hty
    cases e with
    | mk ty msg dat ts pid pname =>
      cases msg <;> cases dat <;> cases pid <;> cases pname <;>
        exact ⟨_, rfl, rfl, rfl⟩
  · intro msg pid pname d progress findings mo dopt
    refine ⟨?_, ?_, ?_, ?_, ?_, ?_, ?_, ?_⟩
    · show "progress" ∈ streamEventTypes
      decide
    · show "data" ∈ streamEventTypes
      decide
    · show "error" ∈ streamEventTypes
      decide
    · rw [completeEvent.eq_def]
      split <;> · show "complete" ∈ streamEventTypes
                  decide
    · show "plan" ∈ streamEventTypes
      decide
    · show "pillar_start" ∈ streamEventTypes
      decide
    · show "pillar_progress" ∈ streamEventTypes
      decide
    · show "pillar_complete" ∈ streamEventTypes
      decide

theorem progress_stream_frames_witness :
    ∃ entries,
      sendFrame (sendProgressEvent "working") "2026-01-01T00:00:00.000Z"
        = .obj entries
      ∧ Json.lookupKey entries "type"
          = some (.str (sendProgressEvent "working").ty)
      ∧ Json.lookupKey entries "timestamp"
          = some (.str "2026-01-01T00:00:00.000Z") :=
  progress_stream_frames_single_json_with_valid_type.1
    (sendProgressEvent "working") "2026-01-01T00:00:00.000Z" (by decide)

/-- One entry of the static `MODEL_CAPABILITIES` table of the Worker AI
model advisor (src/ai/utils/worker-ai-advisor.ts): a model id with its
capability tags and its per-use-case scores. -/
structure ModelCapability where
  modelId : String
  capabilities : List String
  score : List (String × Nat)

/-- The static `MODEL_CAPABILITIES` table, in source (iteration) order. -/
def MODEL_CAPABILITIES : List ModelCapability := [
  ⟨"@cf/openai/gpt-oss-120b",
    ["reasoning", "agentic", "production", "general-purpose"],
    [("strong-reasoning", 95), ("function-calling", 85),
      ("code-generation", 80), ("long-context", 75)]⟩,
  ⟨"@cf/openai/gpt-oss-20b",
    ["reasoning", "low-latency", "specialized"],
    [("fast-inference", 90), ("strong-reasoning", 75), ("cost-effective", 85)]⟩,
  ⟨"@cf/meta/llama-4-scout-17b-16e-instruct",
    ["multimodal", "moe", "vision", "batch", "function-calling"],
    [("multimodal", 95), ("vision", 95), ("function-calling", 90),
      ("strong-reasoning", 85)]⟩,
  ⟨"@cf/meta/llama-3.3-70b-instruct-fp8-fast",
    ["batch", "function-calling", "fast", "high-capacity"],
    [("strong-reasoning", 90), ("fast-inference", 85),
      ("function-calling", 90), ("code-generation", 85)]⟩,
  ⟨"@cf/meta/llama-3.1-8b-instruct-fast",
    ["fast", "multilingual"],
    [("fast-inference", 95), ("cost-effective", 90), ("multilingual", 80)]⟩,
  ⟨"@cf/meta/llama-3.1-8b-instruct",
    ["multilingual", "dialogue"],
    [("cost-effective", 85), ("multilingual", 85), ("fast-inference", 75)]⟩,
  ⟨"@cf/meta/llama-3.1-70b-instruct",
    ["multilingual", "high-capacity"],
    [("strong-reasoning", 88), ("multilingual", 90), ("long-context", 85)]⟩,
  ⟨"@cf/qwen/qwq-32b",
    ["reasoning", "thinking", "lora"],
    [("strong-reasoning", 92), ("math-reasoning", 95),
      ("code-generation", 80)]⟩,
  ⟨"@cf/qwen/qwen2.5-coder-32b-instruct",
    ["code", "lora"],
    [("code-generation", 95), ("strong-reasoning", 75)]⟩,
  ⟨"@cf/qwen/qwen3-30b-a3b-fp8",
    ["batch", "function-calling", "moe"],
    [("function-calling", 90), ("multilingual", 85),
      ("strong-reasoning", 82)]⟩,
  ⟨"@cf/google/gemma-3-12b-it",
    ["multimodal", "lora", "128k-context", "multilingual"],
    [("long-context", 95), ("multimodal", 80), ("multilingual", 90),
      ("vision", 75)]⟩,
  ⟨"@cf/mistralai/mistral-small-3.1-24b-instruct",
    ["vision", "128k-context", "function-calling"],
    [("vision", 90), ("long-context", 95), ("function-calling", 88),
      ("multimodal", 85)]⟩,
  ⟨"@cf/deepseek/deepseek-r1-distill-qwen-32b",
    ["reasoning", "distilled"],
    [("strong-reasoning", 90), ("math-reasoning", 88)]⟩,
  ⟨"@cf/meta/llama-guard-3-8b",
    ["safety", "moderation", "lora"],
    [("safety-moderation", 95)]⟩,
  ⟨"@cf/meta/llama-3.2-11b-vision-instruct",
    ["vision", "image-reasoning", "lora"],
    [("vision", 92), ("multimodal", 88)]⟩,
  ⟨"@cf/meta/llama-3.2-1b-instruct",
    ["lightweight", "fast"],
    [("fast-inference", 95), ("cost-effective", 95)]⟩,
  ⟨"@cf/meta/llama-3.2-3b-instruct",
    ["lightweight", "agent"],
    [("fast-inference", 90), ("cost-effective", 90)]⟩,
  ⟨"@cf/ibm/granite-4.0-h-micro",
    ["function-calling", "agentic", "rag", "edge"],
    [("function-calling", 92), ("fast-inference", 88),
      ("cost-effective", 85)]⟩,
  ⟨"@hf/nousresearch/hermes-2-pro-mistral-7b",
    ["function-calling", "json-mode"],
    [("function-calling", 88), ("cost-effective", 82)]⟩,
  ⟨"@cf/google/embeddinggemma-300m",
    ["embeddings", "multilingual", "100-languages"],
    [("embeddings", 95), ("multilingual", 95)]⟩,
  ⟨"@cf/baai/bge-m3",
    ["embeddings", "multilingual", "multi-granularity"],
    [("embeddings", 90), ("multilingual", 90)]⟩,
  ⟨"@cf/baai/bge-large-en-v1.5",
    ["embeddings", "batch", "1024-dim"],
    [("embeddings", 88)]⟩,
  ⟨"@cf/baai/bge-base-en-v1.5",
    ["embeddings", "batch", "768-dim"],
    [("embeddings", 82), ("cost-effective", 85)]⟩,
  ⟨"@cf/baai/bge-small-en-v1.5",
    ["embeddings", "batch", "384-dim"],
    [("embeddings", 75), ("cost-effective", 95), ("fast-inference", 90)]⟩,
  ⟨"@cf/qwen/qwen3-embedding-0.6b",
    ["embeddings", "ranking"],
    [("embeddings", 85)]⟩,
  ⟨"@cf/black-forest-labs/flux-2-dev",
    ["image-gen", "multi-reference", "partner"],
    [("image-generation", 95)]⟩,
  ⟨"@cf/black-forest-labs/flux-1-schnell",
    ["image-gen", "fast", "12b-params"],
    [("image-generation", 88), ("fast-inference", 90)]⟩,
  ⟨"@cf/leonardo/lucid-origin",
    ["image-gen", "text-rendering", "partner"],
    [("image-generation", 90)]⟩,
  ⟨"@cf/leonardo/phoenix-1.0",
    ["image-gen", "prompt-adherence", "partner"],
    [("image-generation", 85)]⟩,
  ⟨"@cf/bytedance/stable-diffusion-xl-lightning",
    ["image-gen", "fast", "1024px"],
    [("image-generation", 82), ("fast-inference", 95)]⟩,
  ⟨"@cf/deepgram/nova-3",
    ["asr", "batch", "partner", "real-time"],
    [("speech-to-text", 95), ("real-time-audio", 95)]⟩,
  ⟨"@cf/deepgram/flux",
    ["asr", "voice-agents", "partner", "real-time"],
    [("speech-to-text", 92), ("real-time-audio", 95)]⟩,
  ⟨"@cf/openai/whisper-large-v3-turbo",
    ["asr", "multilingual"],
    [("speech-to-text", 90), ("multilingual", 88)]⟩,
  ⟨"@cf/openai/whisper",
    ["asr", "multilingual", "translation"],
    [("speech-to-text", 85), ("multilingual", 85), ("translation", 70)]⟩,
  ⟨"@cf/deepgram/aura-2-en",
    ["tts", "batch", "partner", "real-time"],
    [("text-to-speech", 95), ("real-time-audio", 90)]⟩,
  ⟨"@cf/deepgram/aura-1",
    ["tts", "batch", "partner", "real-time"],
    [("text-to-speech", 88), ("real-time-audio", 85)]⟩,
  ⟨"@cf/myshell-ai/melotts",
    ["tts", "multilingual"],
    [("text-to-speech", 80), ("multilingual", 85)]⟩,
  ⟨"@cf/meta/m2m100-1.2b",
    ["translation", "batch", "many-to-many"],
    [("translation", 90), ("multilingual", 95)]⟩,
  ⟨"@cf/ai4bharat/indictrans2-en-indic-1B",
    ["translation", "indic-languages"],
    [("translation", 85)]⟩,
  ⟨"@cf/huggingface/distilbert-sst-2-int8",
    ["classification", "sentiment"],
    [("classification", 85)]⟩,
  ⟨"@cf/baai/bge-reranker-base",
    ["reranking", "relevance"],
    [("classification", 80), ("embeddings", 70)]⟩,
  ⟨"@cf/facebook/bart-large-cnn",
    ["summarization"],
    [("summarization", 85)]⟩,
  ⟨"@cf/facebook/detr-resnet-50",
    ["object-detection", "coco"],
    [("object-detection", 85)]⟩,
  ⟨"@cf/pipecat-ai/smart-turn-v2",
    ["vad", "batch", "real-time"],
    [("real-time-audio", 90)]⟩]

/-- `meta.score[context] || 0`: score of an entry for a use case, first
match, defaulting to 0. -/
def scoreLookup (scores : List (String × Nat)) (ctx : String) : Nat :=
  match scores with
  | [] => 0
  | (k, v) :: rest => if k = ctx then v else scoreLookup rest ctx

/-- The `RECOMMENDATION_REASONS` table (the literal `\x7bmodel\x7d`
placeholder is later substituted with the chosen model id). -/
def RECOMMENDATION_REASONS : List (String × String) := [
  ("strong-reasoning",
    "\x7bmodel\x7d excels at complex reasoning tasks, achieving state-of-the-art performance on benchmarks."),
  ("fast-inference",
    "\x7bmodel\x7d is optimized for low-latency inference, ideal for real-time applications."),
  ("code-generation",
    "\x7bmodel\x7d is specifically trained on code and excels at programming tasks."),
  ("vision",
    "\x7bmodel\x7d has native vision capabilities for image understanding and analysis."),
  ("multimodal",
    "\x7bmodel\x7d handles both text and images natively with mixture-of-experts architecture."),
  ("embeddings",
    "\x7bmodel\x7d produces high-quality vector representations for semantic search and RAG."),
  ("image-generation",
    "\x7bmodel\x7d generates high-quality images from text prompts with excellent detail."),
  ("speech-to-text",
    "\x7bmodel\x7d provides accurate speech recognition with support for multiple languages."),
  ("text-to-speech",
    "\x7bmodel\x7d generates natural-sounding speech with context-aware pacing."),
  ("translation", "\x7bmodel\x7d supports many-to-many multilingual translation."),
  ("summarization", "\x7bmodel\x7d excels at text summarization tasks."),
  ("classification",
    "\x7bmodel\x7d is optimized for text classification and sentiment analysis."),
  ("function-calling",
    "\x7bmodel\x7d has robust function calling capabilities for agentic workflows."),
  ("long-context",
    "\x7bmodel\x7d supports up to 128K context window for processing large documents."),
  ("multilingual",
    "\x7bmodel\x7d trained on 100+ languages with excellent cross-lingual performance."),
  ("cost-effective",
    "\x7bmodel\x7d provides excellent quality-to-cost ratio for budget-conscious applications."),
  ("math-reasoning",
    "\x7bmodel\x7d excels at mathematical reasoning and problem-solving."),
  ("safety-moderation",
    "\x7bmodel\x7d is specifically designed for content safety classification."),
  ("object-detection", "\x7bmodel\x7d detects and localizes objects in images."),
  ("real-time-audio",
    "\x7bmodel\x7d is optimized for real-time audio processing and voice agents.")]

/-- First-match lookup in a string association list. -/
def assocLookup (table : List (String × String)) (k : String) : Option String :=
  match table with
  | [] => none
  | (k', v) :: rest => if k' = k then some v else assocLookup rest k

/-- One scored candidate (`{ id, score, caps }` in `recommendModel`). -/
structure ScoredModel where
  id : String
  score : Nat
  caps : List String

/-- Result record of the advisor (`ModelRecommendation`). -/
structure ModelRecommendation where
  modelId : String
  reason : String
  alternatives : List String
  taskType : String
  capabilities : List String
deriving Repr, DecidableEq

/-- The candidates with a nonzero score for the use case, in table order. -/
def scoredModels (ctx : String) : List ScoredModel :=
  MODEL_CAPABILITIES.filterMap (fun m =>
    let s := scoreLookup m.score ctx
    if s > 0 then some ⟨m.modelId, s, m.capabilities⟩ else none)

/-- Insert a candidate into a descending-sorted list, after any candidate
of greater-or-equal score (the placement a stable sort gives an element
arriving later in the input). -/
def insertDesc (x : ScoredModel) : List ScoredModel → List ScoredModel
  | [] => [x]
  | y :: ys => if y.score < x.score then x :: y :: ys else y :: insertDesc x ys

/-- `scored.sort((a, b) => b.score - a.score)`: ECMAScript sorts are stable,
and a stable sort under the total preorder "greater score first" yields a
unique result, here computed by stable insertion. -/
def sortDesc (l : List ScoredModel) : List ScoredModel :=
  l.foldl (fun acc x => insertDesc x acc) []

/-- The nonzero-score candidates sorted by descending score. -/
def sortedScoredModels (ctx : String) : List ScoredModel :=
  sortDesc (scoredModels ctx)

/-- Task type derived from the winning entry's capability tags. -/
def taskTypeForCaps (caps : List String) : String :=
  if caps.contains "embeddings" then "Text Embeddings"
  else if caps.contains "image-gen" then "Text-to-Image"
  else if caps.contains "asr" then "Automatic Speech Recognition"
  else if caps.contains "tts" then "Text-to-Speech"
  else if caps.contains "translation" then "Translation"
  else if caps.contains "classification" || caps.contains "reranking" then
    "Text Classification"
  else if caps.contains "summarization" then "Summarization"
  else if caps.contains "object-detection" then "Object Detection"
  else if caps.contains "vad" then "Voice Activity Detection"
  else "Text Generation"

/-- The fixed recommendation returned when no entry scores above zero. -/
def defaultRecommendation (ctx : String) : ModelRecommendation :=
  { modelId := "@cf/meta/llama-3.1-8b-instruct",
    reason := "No specific model found for \"" ++ ctx
      ++ "\". Defaulting to Llama 3.1 8B as a versatile option.",
    alternatives := ["@cf/meta/llama-3.3-70b-instruct-fp8-fast",
      "@cf/qwen/qwen3-30b-a3b-fp8"],
    taskType := "Text Generation",
    capabilities := ["multilingual", "dialogue"] }

/-- `recommendModel` (src/ai/utils/worker-ai-advisor.ts).  The use case is
a string at runtime (`meta.score[context] || 0` defends against unknown
values), so the function is modelled on arbitrary strings. -/
def recommendModel (ctx : String) : ModelRecommendation :=
  match sortedScoredModels ctx with
  | [] => defaultRecommendation ctx
  | best :: rest =>
    let fallback := "Best match for " ++ ctx ++ " with score "
      ++ toString best.score ++ "/100"
    let reasons := match assocLookup RECOMMENDATION_REASONS ctx with
      | some r => if r = "" then fallback else r
      | none => fallback
    { modelId := best.id,
      reason := reasons.replace "\x7bmodel\x7d" best.id,
      alternatives := (rest.take 3).map (fun s => s.id),
      taskType := taskTypeForCaps best.caps,
      capabilities := best.caps }

example : (recommendModel "vision").modelId
    = "@cf/meta/llama-4-scout-17b-16e-instruct" := by rfl

example : (recommendModel "nonexistent-use-case").modelId
    = "@cf/meta/llama-3.1-8b-instruct" := by rfl

theorem mem_insertDesc {x y : ScoredModel} :
    ∀ l, y ∈ insertDesc x l ↔ y = x ∨ y ∈ l := by
  intro l
  induction l with
  | nil => simp [insertDesc]
  | cons z zs ih =>
    rw [insertDesc]
    split
    · simp
    · simp only [List.mem_cons, ih]
      tauto

/-- A list is descending when each element dominates all later ones. -/
def DescSorted (l : List ScoredModel) : Prop :=
  l.Pairwise (fun a b => b.score ≤ a.score)

theorem descSorted_insertDesc {x : ScoredModel} :
    ∀ {l}, DescSorted l → DescSorted (insertDesc x l) := by
  intro l
  induction l with
  | nil => intro _; simp [insertDesc, DescSorted]
  | cons z zs ih =>
    intro hs
    obtain ⟨hz, hzs⟩ := List.pairwise_cons.mp hs
    rw [insertDesc]
    split
    · rename_i hlt
      refine List.pairwise_cons.mpr ⟨?_, hs⟩
      intro b hb
      rcases List.mem_cons.mp hb with rfl | hbzs
      · omega
      · have := hz b hbzs
        omega
    · rename_i hge
      refine List.pairwise_cons.mpr ⟨?_, ih hzs⟩
      intro b hb
      rcases (mem_insertDesc zs).mp hb with rfl | hbzs
      · omega
      · exact hz b hbzs

theorem mem_sortDesc_aux (x : ScoredModel) :
    ∀ (l acc : List ScoredModel), x ∈ l ∨ x ∈ acc →
      x ∈ l.foldl (fun acc y => insertDesc y acc) acc := by
  intro l
  induction l with
  | nil =>
    intro acc h
    rcases h with h | h
    · exact absurd h (List.not_mem_nil x)
    · simpa using h
  | cons z zs ih =>
    intro acc h
    show x ∈ zs.foldl (fun acc y => insertDesc y acc) (insertDesc z acc)
    apply ih
    rcases h with h | h
    · rcases List.mem_cons.mp h with rfl | hzs
      · exact Or.inr ((mem_insertDesc acc).mpr (Or.inl rfl))
      · exact Or.inl hzs
    · exact Or.inr ((mem_insertDesc acc).mpr (Or.inr h))

theorem descSorted_sortDesc_aux :
    ∀ (l acc : List ScoredModel), DescSorted acc →
      DescSorted (l.foldl (fun acc y => insertDesc y acc) acc) := by
  intro l
  induction l with
  | nil => intro acc h; simpa using h
  | cons z zs ih =>
    intro acc h
    exact ih (insertDesc z acc) (descSorted_insertDesc h)

theorem mem_sortDesc {x : ScoredModel} {l : List ScoredModel} (h : x ∈ l) :
    x ∈ sortDesc l :=
  mem_sortDesc_aux x l [] (Or.inl h)

theorem descSorted_sortDesc (l : List ScoredModel) :
    DescSorted (sortDesc l) :=
  descSorted_sortDesc_aux l [] (by simp [DescSorted])

/-- C5: for every use case string, `recommendModel` returns the head of the
descending-sorted nonzero-score candidates as the recommendation with the
next three as alternatives, so the recommended score is greatest among all
scored candidates; and with no nonzero-score candidate it returns the fixed
default `@cf/meta/llama-3.1-8b-instruct` with the generic justification. -/
theorem recommendModel_top_scored_or_default :
    ∀ ctx : String,
      (scoredModels ctx = [] → recommendModel ctx = defaultRecommendation ctx)
      ∧ (∀ best rest, sortedScoredModels ctx = best :: rest →
          (recommendModel ctx).modelId = best.id
          ∧ (recommendModel ctx).alternatives
              = (rest.take 3).map (fun s => s.id)
          ∧ (recommendModel ctx).capabilities = best.caps
          ∧ ∀ x ∈ scoredModels ctx, x.score ≤ best.score) := by
  intro ctx
  constructor
  · intro hempty
    rw [recommendModel.eq_def, sortedScoredModels, hempty]
    rfl
  · intro best rest hsort
    have hpair : DescSorted (best :: rest) := by
      rw [← hsort]
      exact descSorted_sortDesc (scoredModels ctx)
    refine ⟨?_, ?_, ?_, ?_⟩
    · rw [recommendModel.eq_def, hsort]
    · rw [recommendModel.eq_def, hsort]
    · rw [recommendModel.eq_def, hsort]
    · intro x hx
      have hx' : x ∈ best :: rest := by
        rw [← hsort]
        exact mem_sortDesc hx
      rcases List.mem_cons.mp hx' with rfl | hxr
      · exact Nat.le_refl _
      · exact (List.pairwise_cons.mp hpair).1 x hxr

theorem recommendModel_witness :
    (recommendModel "nonexistent-use-case"
      = defaultRecommendation "nonexistent-use-case")
    ∧ (recommendModel "vision").modelId = "@cf/meta/llama-4-scout-17b-16e-instruct"
    ∧ (∀ x ∈ scoredModels "vision", x.score ≤ 95) := by
  have h1 := (recommendModel_top_scored_or_default "nonexistent-use-case").1
    (by rfl)
  have h2 := (recommendModel_top_scored_or_default "vision").2
    ⟨"@cf/meta/llama-4-scout-17b-16e-instruct", 95,
      ["multimodal", "moe", "vision", "batch", "function-calling"]⟩
    (sortedScoredModels "vision").tail (by rfl)
  exact ⟨h1, h2.1, h2.2.2.2⟩

mutual

/-- Model of `JSON.stringify` on the modelled values (objects with
`undefined` members cannot occur in the model, so every entry is kept). -/
def jsonStringify : Json → String
  | .null => "null"
  | .bool true => "true"
  | .bool false => "false"
  | .num n => toString n
  | .str s =>
    "\"" ++ ((s.replace "\\" "\\\\").replace "\"" "\\\"") ++ "\""
  | .arr xs => "[" ++ jsonStringifyList xs ++ "]"
  | .obj kvs => "\x7b" ++ jsonStringifyEntries kvs ++ "\x7d"

/-- Comma-joined serialization of array elements. -/
def jsonStringifyList : List Json → String
  | [] => ""
  | [x] => jsonStringify x
  | x :: rest => jsonStringify x ++ "," ++ jsonStringifyList rest

/-- Comma-joined serialization of object entries. -/
def jsonStringifyEntries : List (String × Json) → String
  | [] => ""
  | [(k, v)] =>
    "\"" ++ ((k.replace "\\" "\\\\").replace "\"" "\\\"") ++ "\":"
      ++ jsonStringify v
  | (k, v) :: rest =>
    "\"" ++ ((k.replace "\\" "\\\\").replace "\"" "\\\"") ++ "\":"
      ++ jsonStringify v ++ "," ++ jsonStringifyEntries rest

end

mutual

/-- Model of the JavaScript `String(x)` coercion: arrays join their
elements with commas (null elements contribute the empty string), objects
print as `[object Object]`. -/
def jsStringOf : Json → String
  | .null => "null"
  | .bool true => "true"
  | .bool false => "false"
  | .num n => toString n
  | .str s => s
  | .arr xs => jsStringOfElems xs
  | .obj _ => "[object Object]"

/-- `Array.prototype.join(",")` as used by `String(array)`. -/
def jsStringOfElems : List Json → String
  | [] => ""
  | [x] => (match x with | .null => "" | v => jsStringOf v)
  | x :: rest =>
    (match x with | .null => "" | v => jsStringOf v) ++ ","
      ++ jsStringOfElems rest

end

/-- Skip JSON whitespace. -/
def skipWs : List Char → List Char
  | c :: rest =>
    if c = ' ' ∨ c = '\n' ∨ c = '\t' ∨ c = '\r' then skipWs rest
    else c :: rest
  | [] => []

/-- Expect a literal character sequence. -/
def expectChars : List Char → List Char → Option (List Char)
  | [], cs => some cs
  | e :: es, c :: cs => if c = e then expectChars es cs else none
  | _ :: _, [] => none

/-- Parse a run of decimal digits (at least one). -/
def parseDigits : List Char → Nat → Bool → Option (Nat × List Char)
  | c :: rest, acc, seen =>
    if c.isDigit then parseDigits rest (acc * 10 + (c.toNat - 48)) true
    else if seen then some (acc, c :: rest) else none
  | [], acc, seen => if seen then some (acc, []) else none

/-- Parse a JSON number.  The model restricts numbers to integers (see the
note on `Json`); fractional or exponent forms make the model parser fail
where `JSON.parse` would succeed, a restriction not exercised by any
verified property. -/
def parseNumber : List Char → Option (Json × List Char)
  | '-' :: rest =>
    match parseDigits rest 0 false with
    | some (n, cs) => some (.num (-(n : Int)), cs)
    | none => none
  | cs =>
    match parseDigits cs 0 false with
    | some (n, cs') => some (.num (n : Int), cs')
    | none => none

/-- Parse the body of a JSON string after the opening quote.  Common
escapes are supported; unsupported escapes make the model parser fail. -/
def parseStringBody : List Char → List Char → Option (String × List Char)
  | [], _ => none
  | '"' :: rest, acc => some (String.mk acc.reverse, rest)
  | '\\' :: e :: rest, acc =>
    if e = '"' then parseStringBody rest ('"' :: acc)
    else if e = '\\' then parseStringBody rest ('\\' :: acc)
    else if e = '/' then parseStringBody rest ('/' :: acc)
    else if e = 'n' then parseStringBody rest ('\n' :: acc)
    else if e = 't' then parseStringBody rest ('\t' :: acc)
    else if e = 'r' then parseStringBody rest ('\r' :: acc)
    else none
  | ['\\'], _ => none
  | c :: rest, acc => parseStringBody rest (c :: acc)

mutual

/-- Recursive-descent model of `JSON.parse` on a whitespace-skipped
character list; `fuel` bounds the recursion depth and is chosen large
enough in `jsonParse` that it never runs out on the given input. -/
def parseJsonValue : Nat → List Char → Option (Json × List Char)
  | 0, _ => none
  | _ + 1, [] => none
  | fuel + 1, c :: rest =>
    if c = 'n' then
      match expectChars ['u', 'l', 'l'] rest with
      | some cs => some (.null, cs)
      | none => none
    else if c = 't' then
      match expectChars ['r', 'u', 'e'] rest with
      | some cs => some (.bool true, cs)
      | none => none
    else if c = 'f' then
      match expectChars ['a', 'l', 's', 'e'] rest with
      | some cs => some (.bool false, cs)
      | none => none
    else if c = '"' then
      match parseStringBody rest [] with
      | some (s, cs) => some (.str s, cs)
      | none => none
    else if c = '[' then
      match skipWs rest with
      | ']' :: cs => some (.arr [], cs)
      | cs => parseArrayLoop fuel cs []
    else if c = '\x7b' then
      match skipWs rest with
      | '\x7d' :: cs => some (.obj [], cs)
      | cs => parseObjLoop fuel cs []
    else if c = '-' ∨ c.isDigit then parseNumber (c :: rest)
    else none

/-- Parse the remaining comma-separated elements of a JSON array. -/
def parseArrayLoop : Nat → List Char → List Json → Option (Json × List Char)
  | 0, _, _ => none
  | fuel + 1, cs, acc =>
    match parseJsonValue fuel (skipWs cs) with
    | none => none
    | some (v, cs1) =>
      match skipWs cs1 with
      | ',' :: cs2 => parseArrayLoop fuel cs2 (v :: acc)
      | ']' :: cs2 => some (.arr (v :: acc).reverse, cs2)
      | _ => none

/-- Parse the remaining comma-separated members of a JSON object. -/
def parseObjLoop : Nat → List Char → List (String × Json) →
    Option (Json × List Char)
  | 0, _, _ => none
  | fuel + 1, cs, acc =>
    match skipWs cs with
    | '"' :: cs0 =>
      match parseStringBody cs0 [] with
      | none => none
      | some (k, cs1) =>
        match skipWs cs1 with
        | ':' :: cs2 =>
          match parseJsonValue fuel (skipWs cs2) with
          | none => none
          | some (v, cs3) =>
            match skipWs cs3 with
            | ',' :: cs4 => parseObjLoop fuel cs4 ((k, v) :: acc)
            | '\x7d' :: cs4 => some (.obj ((k, v) :: acc).reverse, cs4)
            | _ => none
        | _ => none
    | _ => none

end

/-- Model of `JSON.parse`: `none` models a thrown `SyntaxError`. -/
def jsonParse (s : String) : Option Json :=
  let cs := skipWs s.toList
  match parseJsonValue (2 * s.length + 4) cs with
  | some (v, rest) => if skipWs rest = [] then some v else none
  | none => none

set_option maxRecDepth 8000 in
example : jsonParse "\x7b\"a\": 1, \"b\": [true, null]\x7d"
    = some (.obj [("a", .num 1), ("b", .arr [.bool true, .null])]) := by rfl

example : jsonParse "not json" = none := by rfl

example : jsonParse "" = none := by rfl

/-- Minimal model of a Zod schema value as the adapters observe it: the
`_def.typeName` tag it carries and the JSON Schema that the external
`zodToJsonSchema` library produces for it (the `openApi3` target option
only changes which dialect keys appear in that output, which the
normalizers then strip; it is immaterial to the verified properties). -/
structure ZodSchemaModel where
  typeName : String
  toJsonSchema : Json

/-- Model of calling the external `zodToJsonSchema(schema)` with a possibly
absent schema: the library immediately reads `schema._def`, so a
null/undefined argument raises a TypeError. -/
def zodToJsonSchemaModel (schema : Option ZodSchemaModel) : Except String Json :=
  match schema with
  | none => .error "TypeError: Cannot read properties of null reading _def"
  | some z => .ok z.toJsonSchema

/-- The `schema: z.ZodType<T> | object` argument of `generateStructured`:
the function sniffs `"_def" in schema || "parse" in schema` to decide
whether to run `zodToJsonSchema` or use the object as-is. -/
inductive SchemaLike where
  | zod (z : ZodSchemaModel)
  | plain (j : Json)

/-- JavaScript string trim, modelled on the character list (the common
whitespace characters suffice for the verified properties). -/
def jsTrim (s : String) : String :=
  ⟨(((s.data).dropWhile (fun c => c = ' ' ∨ c = '\n' ∨ c = '\t' ∨ c = '\r')).reverse.dropWhile
      (fun c => c = ' ' ∨ c = '\n' ∨ c = '\t' ∨ c = '\r')).reverse⟩

/-- The backtick character (written via its code point). -/
def backquoteChar : Char := Char.ofNat 96

/-- `cleanJsonOutput` (src/ai/utils/sanitizer.ts): trims, then strips a
leading Markdown code fence per the regex (three backticks, an optional
`json` tag, an optional newline) and a trailing fence per the regex (an
optional newline and three closing backticks at the end). -/
def cleanJsonOutput (text : String) : String :=
  let cl := (jsTrim text).data
  if (expectChars [backquoteChar, backquoteChar, backquoteChar] cl).isSome then
    let c1 := cl.drop 3
    let c2 := match expectChars ['j', 's', 'o', 'n'] c1 with
      | some r => r
      | none => c1
    let c3 := match c2 with
      | '\n' :: r => r
      | _ => c2
    let c4 := match expectChars [backquoteChar, backquoteChar, backquoteChar]
        c3.reverse with
      | some rr =>
        (match rr with
          | '\n' :: rr2 => rr2
          | _ => rr).reverse
      | none => c3
    ⟨c4⟩
  else ⟨cl⟩

/-- Text extraction of the Worker AI `generateText`
(src/ai/providers/worker-ai.ts): an object response with a `response`
member yields that member (stringified unless already a string); anything
else is `String(response)`. -/
def workerAITextOf (response : Json) : String :=
  match response with
  | .obj kvs =>
    match Json.lookupKey kvs "response" with
    | some (.str s) => s
    | some raw => jsonStringify raw
    | none => jsStringOf (.obj kvs)
  | v => jsStringOf v

/-- Worker AI `generateText` as invoked by `generateStructured` phase 1
(`sanitize: false`, so the sanitize branch is not taken): the transport
outcome of `env.AI.run` either throws (re-thrown with the
`Failed to generate text:` prefix) or yields the extracted text. -/
def workerGenerateText (outcome : Except String Json) : Except String String :=
  match outcome with
  | .error e => .error ("Failed to generate text: " ++ e)
  | .ok resp => .ok (workerAITextOf resp)

/-- Error message of a thrown JSON.parse SyntaxError; the verified
properties depend only on the error field being populated. -/
def jsonParseErrorMessage : String := "Unexpected token in JSON"

/-- Worker AI `generateStructured` (src/ai/providers/worker-ai.ts): the
two-phase protocol.  `phase1` and `phase2` are the transport outcomes of
the two `env.AI.run` calls; the returned flag records whether the phase-2
request was issued.  An empty (blank or whitespace-only) phase-1 text
throws `Reasoning model returned no content.` before phase 2; phase-2
object results with an object/array/null `response` member are returned
directly (`typeof rawJson === "object"`), other members go through
`JSON.parse(cleanJsonOutput(String(rawJson)))`, and a missing `response`
member throws the unexpected-format error. -/
def workerGenerateStructured (schema : SchemaLike)
    (phase1 phase2 : Except String Json) : Except String Json × Bool :=
  let jsonSchema := match schema with
    | .zod z => z.toJsonSchema
    | .plain j => j
  let _cleaned := cleanWorkerAISchema jsonSchema
  match workerGenerateText phase1 with
  | .error e => (.error e, false)
  | .ok reasoningOutput =>
    if jsTrim reasoningOutput = "" then
      (.error "Reasoning model returned no content.", false)
    else
      match phase2 with
      | .error e => (.error e, true)
      | .ok resp =>
        match resp with
        | .obj kvs =>
          match Json.lookupKey kvs "response" with
          | some raw =>
            match raw with
            | .obj o => (.ok (.obj o), true)
            | .arr a => (.ok (.arr a), true)
            | .null => (.ok .null, true)
            | prim =>
              match jsonParse (cleanJsonOutput (jsStringOf prim)) with
              | some v => (.ok v, true)
              | none => (.error jsonParseErrorMessage, true)
          | none => (.error "Unexpected response format from structuring model", true)
        | _ => (.error "Unexpected response format from structuring model", true)

set_option maxRecDepth 8000 in
example :
    workerGenerateStructured (.plain (.obj []))
      (.ok (.obj [("response", .str "analysis text")]))
      (.ok (.obj [("response", .str "\x7b\"a\":1\x7d")]))
    = (.ok (.obj [("a", .num 1)]), true) := by rfl

/-- C4: if the phase-1 reasoning pass of the Worker AI two-phase protocol
returns a blank or whitespace-only text, `generateStructured` fails with
the empty-reasoning error and the phase-2 structuring request is never
issued. -/
theorem worker_two_phase_blank_reasoning_short_circuits :
    ∀ (schema : SchemaLike) (v : Json) (phase2 : Except String Json),
      jsTrim (workerAITextOf v) = "" →
      workerGenerateStructured schema (.ok v) phase2
        = (.error "Reasoning model returned no content.", false) := by
  intro schema v phase2 hblank
  rw [workerGenerateStructured.eq_def]
  rw [show workerGenerateText (.ok v) = .ok (workerAITextOf v) from rfl]
  dsimp only
  rw [if_pos hblank]

theorem worker_two_phase_blank_reasoning_witness :
    workerGenerateStructured (.plain (.obj []))
      (.ok (.obj [("response", .str "   ")]))
      (.ok (.obj [("response", .str "\x7b\x7d")]))
    = (.error "Reasoning model returned no content.", false) :=
  worker_two_phase_blank_reasoning_short_circuits (.plain (.obj []))
    (.obj [("response", .str "   ")])
    (.ok (.obj [("response", .str "\x7b\x7d")])) (by rfl)

namespace Json

/-- JavaScript property assignment `o[k] = v`: replaces the value in place
if the key exists, otherwise appends the key. -/
def setKey (kvs : List (String × Json)) (k : String) (v : Json) :
    List (String × Json) :=
  match kvs with
  | [] => [(k, v)]
  | (k', v') :: rest =>
    if k' = k then (k, v) :: rest else (k', v') :: setKey rest k v

/-- JavaScript `delete o[k]`. -/
def eraseKey (kvs : List (String × Json)) (k : String) :
    List (String × Json) :=
  kvs.filter (fun e => e.1 ≠ k)

end Json

/-- The `{ type: "object", properties: {} }` parameter schema the OpenAI
canonicalizer substitutes for an absent or `ZodNull` schema. -/
def emptyObjectParameters : Json :=
  .obj [("type", .str "object"), ("properties", .obj [])]

/-- The tool envelope `{ type: "function", function: { name, description,
parameters } }` shared by the OpenAI and Worker AI canonicalizers. -/
def functionToolEnvelope (name description : String) (parameters : Json) :
    Json :=
  .obj [("type", .str "function"),
        ("function", .obj [("name", .str name),
                           ("description", .str description),
                           ("parameters", parameters)])]

/-- The root-type coercion at the end of `toOpenAITool`: when the cleaned
schema's `type` is not `"object"`, and is `"None"` or falsy/missing, it is
forced to `"object"` and a missing/falsy `properties` is set to `{}`. -/
def openAIToolTypeCoercion (cleaned : Json) : Json :=
  match cleaned with
  | .obj kvs =>
    let tval := Json.lookupKey kvs "type"
    let isObjectType : Bool := match tval with
      | some (.str s) => s = "object"
      | _ => false
    let isNoneType : Bool := match tval with
      | some (.str s) => s = "None"
      | _ => false
    let typeFalsy : Bool := match tval with
      | some t => !t.truthy
      | none => true
    if isObjectType then .obj kvs
    else if isNoneType || typeFalsy then
      let kvs1 := Json.setKey kvs "type" (.str "object")
      let propsFalsy : Bool := match Json.lookupKey kvs1 "properties" with
        | some p => !p.truthy
        | none => true
      if propsFalsy then .obj (Json.setKey kvs1 "properties" (.obj []))
      else .obj kvs1
    else .obj kvs
  | v => v

/-- `toOpenAITool` (src/ai/providers/openai.ts): an absent schema or a
`ZodNull` schema short-circuits to the empty-object parameter schema;
otherwise the schema is converted, cleaned and type-coerced. -/
def toOpenAITool (name description : String)
    (schema : Option ZodSchemaModel) : Json :=
  match schema with
  | none => functionToolEnvelope name description emptyObjectParameters
  | some z =>
    if z.typeName = "ZodNull" then
      functionToolEnvelope name description emptyObjectParameters
    else
      functionToolEnvelope name description
        (openAIToolTypeCoercion (cleanOpenAISchema z.toJsonSchema))

/-- `toWorkerAITool` (src/ai/providers/worker-ai.ts): calls
`zodToJsonSchema(schema)` with no null guard, so an absent schema throws;
otherwise the converted schema is cleaned and wrapped. -/
def toWorkerAITool (name description : String)
    (schema : Option ZodSchemaModel) : Except String Json :=
  match zodToJsonSchemaModel schema with
  | .error e => .error e
  | .ok j =>
    .ok (functionToolEnvelope name description (cleanWorkerAISchema j))

/-- `cleanGeminiParameters` (src/ai/providers/gemini.ts): cleans a tool's
truthy `parameters` member in place with the Gemini banned-key set. -/
def cleanGeminiParameters (tool : Json) : Json :=
  match tool with
  | .obj kvs =>
    match Json.lookupKey kvs "parameters" with
    | some p =>
      if p.truthy then
        .obj (Json.setKey kvs "parameters" (cleanNode geminiBannedKeys p))
      else .obj kvs
    | none => .obj kvs
  | v => v

/-- `toGeminiTool` (src/ai/providers/gemini.ts): calls `zodToJsonSchema`
with no null guard (so an absent schema throws), conditionally deletes a
truthy top-level `$schema`/`additionalProperties`, rebuilds the parameters
as `{ type: "OBJECT", properties, required }` (a member is omitted when the
source schema lacks it, as `JSON.stringify` drops `undefined` members) and
cleans the result. -/
def toGeminiTool (name description : String)
    (schema : Option ZodSchemaModel) : Except String Json :=
  match zodToJsonSchemaModel schema with
  | .error e => .error e
  | .ok j =>
    let j1 := match j with
      | .obj kvs =>
        let kvs1 := match Json.lookupKey kvs "$schema" with
          | some v => if v.truthy then Json.eraseKey kvs "$schema" else kvs
          | none => kvs
        let kvs2 := match Json.lookupKey kvs1 "additionalProperties" with
          | some v => if v.truthy then Json.eraseKey kvs1 "additionalProperties"
            else kvs1
          | none => kvs1
        Json.obj kvs2
      | v => v
    let paramEntries : List (String × Json) :=
      [("type", Json.str "OBJECT")]
      ++ (match j1 with
          | .obj kvs => match Json.lookupKey kvs "properties" with
            | some p => [("properties", p)]
            | none => []
          | _ => [])
      ++ (match j1 with
          | .obj kvs => match Json.lookupKey kvs "required" with
            | some r => [("required", r)]
            | none => []
          | _ => [])
    .ok (cleanGeminiParameters
      (.obj [("name", .str name), ("description", .str description),
             ("parameters", .obj paramEntries)]))

/-- C8 counterexample: with an absent parameter schema only the OpenAI
canonicalizer produces the empty-object parameter schema; the Worker AI
and Gemini canonicalizers pass the absent schema straight to
`zodToJsonSchema` and fail instead of producing a declaration. -/
theorem tool_canonicalizers_null_schema_counterexample :
    toWorkerAITool "t" "d" none
      = .error "TypeError: Cannot read properties of null reading _def"
    ∧ toGeminiTool "t" "d" none
      = .error "TypeError: Cannot read properties of null reading _def"
    ∧ toOpenAITool "t" "d" none
      = functionToolEnvelope "t" "d" emptyObjectParameters :=
  ⟨rfl, rfl, rfl⟩

/-- C8 (amended): the OpenAI canonicalizer produces a tool declaration with
the valid empty-object parameter schema `{type: "object", properties: {}}`
for an absent or ZodNull parameter schema; the Worker AI and Gemini
canonicalizers do not handle an absent schema (the `zodToJsonSchema` call
fails on it). -/
theorem openai_tool_empty_schema_amended :
    ∀ (name description : String) (schema : Option ZodSchemaModel),
      (schema = none ∨ ∃ z, schema = some z ∧ z.typeName = "ZodNull") →
      toOpenAITool name description schema
        = functionToolEnvelope name description emptyObjectParameters
      ∧ toWorkerAITool name description none
        = .error "TypeError: Cannot read properties of null reading _def"
      ∧ toGeminiTool name description none
        = .error "TypeError: Cannot read properties of null reading _def" := by
  intro name description schema h
  refine ⟨?_, rfl, rfl⟩
  rcases h with rfl | ⟨z, rfl, hz⟩
  · rfl
  · rw [toOpenAITool, if_pos hz]

theorem openai_tool_empty_schema_witness :
    toOpenAITool "lookup" "Look something up"
        (some ⟨"ZodNull", .obj [("type", .str "null")]⟩)
      = functionToolEnvelope "lookup" "Look something up" emptyObjectParameters
    ∧ toWorkerAITool "lookup" "Look something up" none
      = .error "TypeError: Cannot read properties of null reading _def"
    ∧ toGeminiTool "lookup" "Look something up" none
      = .error "TypeError: Cannot read properties of null reading _def" :=
  openai_tool_empty_schema_amended "lookup" "Look something up"
    (some ⟨"ZodNull", .obj [("type", .str "null")]⟩)
    (Or.inr ⟨⟨"ZodNull", .obj [("type", .str "null")]⟩, rfl, rfl⟩)

/-- `error.message || String(error)` used when a caught error is stored in
the result's error field (an empty message falls back to the generic
`String(error)` rendering). -/
def jsErrorMessage (m : String) : String := if m = "" then "Error" else m

/-- `StructuredToolResponse<T>` (src/ai/types.ts), parameterized by the
shape of the ancillary invocation records each adapter pushes. -/
structure StructuredToolResponse (τ : Type) where
  is_success : Bool
  tool_calls : Option (List τ) := none
  response : Option Json := none
  content : Option String := none
  error : Option String := none

/-- A raw OpenAI tool call as the adapter reads it from the completion:
`type`, `id`, `function.name` and the raw JSON text `function.arguments`. -/
structure OAIToolCall where
  ty : String
  id : String
  name : String
  args : String

/-- The canonical invocation record the OpenAI adapter pushes:
`{ name, arguments: JSON.parse(...), id }`. -/
structure OAIOut where
  name : String
  arguments : Json
  id : String

/-- The completion message the OpenAI adapter unwraps
(`completion.choices[0].message`). -/
structure OAIMessage where
  content : Option String
  tool_calls : Option (List OAIToolCall)

/-- Outcome of the OpenAI transport call inside the try block. -/
inductive OAIOutcome where
  | fail (msg : String)
  | reply (msg : OAIMessage)

/-- The tool-call loop of the OpenAI `generateStructuredWithTools`:
non-function calls are skipped; a sentinel call's arguments are parsed
under an inner try (a parse failure only logs, keeping the previous
value); any other call's arguments are parsed without protection, so a
parse failure propagates to the outer catch (modelled as `.error`). -/
def openaiProcessCalls : List OAIToolCall → List OAIOut → Option Json →
    Except String (List OAIOut × Option Json)
  | [], acc, fr => .ok (acc.reverse, fr)
  | tc :: rest, acc, fr =>
    if tc.ty ≠ "function" then openaiProcessCalls rest acc fr
    else if tc.name = "final_response" then
      match jsonParse tc.args with
      | some v => openaiProcessCalls rest acc (some v)
      | none => openaiProcessCalls rest acc fr
    else
      match jsonParse tc.args with
      | some v =>
        openaiProcessCalls rest (⟨tc.name, v, tc.id⟩ :: acc) fr
      | none => .error jsonParseErrorMessage

/-- OpenAI `generateStructuredWithTools` (src/ai/providers/openai.ts).
`createOpenAIClient` runs before the try block: it first throws on a
missing `OPENAI_API_KEY`, then computes the client base URL through
`getAIGatewayUrl` (src/ai/utils/ai-gateway.ts), which throws on a missing
`CLOUDFLARE_ACCOUNT_ID` — both escape as `.error`.  Every later failure is
caught and returned as a failure response.  The tool list and messages
only shape the outbound request, which the transport outcome parameter
stands for. -/
def openaiGenerateStructuredWithTools (apiKey accountId : Option String)
    (outcome : OAIOutcome) :
    Except String (StructuredToolResponse OAIOut) :=
  match apiKey with
  | none => .error "Missing OPENAI_API_KEY"
  | some _ =>
    match accountId with
    | none => .error "Missing CLOUDFLARE_ACCOUNT_ID in environment variables"
    | some _ =>
      match outcome with
      | .fail m =>
        .ok { is_success := false, error := some (jsErrorMessage m) }
      | .reply msg =>
        match openaiProcessCalls (msg.tool_calls.getD []) [] none with
        | .error m =>
          .ok { is_success := false, error := some (jsErrorMessage m) }
        | .ok (tcs, fr) =>
          .ok { is_success := fr.isSome,
                tool_calls := if tcs.length > 0 then some tcs else none,
                response := fr,
                content := match msg.content with
                  | some c => if c = "" then none else some c
                  | none => none,
                error := if fr.isSome then none
                  else some "Model did not call final_response tool" }

/-- A raw Worker AI tool call: `{ name, arguments }`, the arguments already
a structured value (or absent). -/
structure WAIToolCall where
  name : String
  arguments : Option Json

/-- The Worker AI run result as read by the adapter:
`result.response` and `result.tool_calls`. -/
structure WAIResult where
  response : Option Json
  tool_calls : Option (List WAIToolCall)

/-- Outcome of the Worker AI transport call inside the try block. -/
inductive WAIOutcome where
  | fail (msg : String)
  | reply (result : WAIResult)

/-- The tool-call loop of the Worker AI `generateStructuredWithTools`: a
sentinel call unconditionally assigns its (possibly absent) arguments to
the final response; every other call is pushed unchanged. -/
def workerProcessCalls : List WAIToolCall → List WAIToolCall → Option Json →
    List WAIToolCall × Option Json
  | [], acc, fr => (acc.reverse, fr)
  | tc :: rest, acc, fr =>
    if tc.name = "final_response" then workerProcessCalls rest acc tc.arguments
    else workerProcessCalls rest (tc :: acc) fr

/-- Worker AI `generateStructuredWithTools` (src/ai/providers/worker-ai.ts).
Everything, including `toWorkerAITool` on the caller's schema, runs inside
the try block, so every failure is returned as a failure response and the
function never throws. -/
def workerGenerateStructuredWithTools (schema : Option ZodSchemaModel)
    (outcome : WAIOutcome) :
    Except String (StructuredToolResponse WAIToolCall) :=
  match toWorkerAITool "final_response"
      "Call this tool to provide the final structured response." schema with
  | .error e =>
    .ok { is_success := false, error := some (jsErrorMessage e) }
  | .ok _finalTool =>
    match outcome with
    | .fail m =>
      .ok { is_success := false, error := some (jsErrorMessage m) }
    | .reply result =>
      let (tcs, fr) := workerProcessCalls (result.tool_calls.getD []) [] none
      .ok { is_success := fr.isSome,
            tool_calls := if tcs.length > 0 then some tcs else none,
            response := fr,
            content := match result.response with
              | some resp => if resp.truthy then some (jsStringOf resp) else none
              | none => none,
            error := if fr.isSome then none
              else some "Model did not call final_response tool" }

/-- A Gemini `functionCall` part payload. -/
structure GemFunctionCall where
  name : String
  args : Option Json

/-- One part of a Gemini candidate's content. -/
structure GemPart where
  text : Option String
  functionCall : Option GemFunctionCall

/-- A Gemini candidate (`candidate.content?.parts || []`). -/
structure GemCandidate where
  parts : Option (List GemPart)

/-- Outcome of the Gemini transport call inside the try block. -/
inductive GemOutcome where
  | fail (msg : String)
  | reply (candidate : Option GemCandidate)

/-- The canonical invocation record the Gemini adapter pushes:
`{ name, arguments, id: "call_" + crypto.randomUUID() }`. -/
structure GemOut where
  name : String
  arguments : Option Json
  id : String

/-- The part loop of the Gemini `generateStructuredWithTools`: truthy text
parts are concatenated into the content, a sentinel function call assigns
its arguments to the final response, other function calls are pushed with a
synthesized id (`uuid` supplies the random identifiers in order). -/
def geminiProcessParts (uuid : Nat → String) :
    List GemPart → Nat → String → List GemOut → Option Json →
    String × List GemOut × Option Json
  | [], _, content, acc, fr => (content, acc.reverse, fr)
  | part :: rest, n, content, acc, fr =>
    let content1 := content ++ (part.text.getD "")
    match part.functionCall with
    | some fc =>
      if fc.name = "final_response" then
        geminiProcessParts uuid rest n content1 acc fc.args
      else
        geminiProcessParts uuid rest (n + 1) content1
          (⟨fc.name, fc.args, "call_" ++ uuid n⟩ :: acc) fr
    | none => geminiProcessParts uuid rest n content1 acc fr

/-- Gemini `generateStructuredWithTools` (src/ai/providers/gemini.ts).
`toGeminiTool` on the caller's schema and `createGeminiClient` both run
before the try block, so an absent schema or missing credentials throw
(`.error`); failures after that are caught or returned as failure
responses (an absent candidate yields the `Empty response` failure). -/
def geminiGenerateStructuredWithTools (apiKey : Option String)
    (schema : Option ZodSchemaModel) (uuid : Nat → String)
    (outcome : GemOutcome) :
    Except String (StructuredToolResponse GemOut) :=
  match toGeminiTool "final_response" "Provide final structured response."
      schema with
  | .error e => .error e
  | .ok _finalTool =>
    match apiKey with
    | none => .error "Missing GEMINI_API_KEY or CLOUDFLARE_ACCOUNT_ID"
    | some _ =>
      match outcome with
      | .fail m => .ok { is_success := false, error := some m }
      | .reply none =>
        .ok { is_success := false, error := some "Empty response" }
      | .reply (some cand) =>
        let (content, tcs, fr) :=
          geminiProcessParts uuid (cand.parts.getD []) 0 "" [] none
        .ok { is_success := fr.isSome,
              tool_calls := if tcs.length > 0 then some tcs else none,
              response := fr,
              content := if content = "" then none else some content,
              error := if fr.isSome then none
                else some "Model did not call final_response" }

/-- Arguments assigned by the last sentinel invocation of a Worker AI
turn (the loop assigns unconditionally, so the last one wins). -/
def sentinelArgsWAI (calls : List WAIToolCall) : Option Json :=
  calls.foldl
    (fun acc tc => if tc.name = "final_response" then tc.arguments else acc)
    none

theorem workerProcessCalls_spec :
    ∀ (calls : List WAIToolCall) (acc : List WAIToolCall) (fr : Option Json),
      workerProcessCalls calls acc fr
        = (acc.reverse ++ calls.filter (fun tc => tc.name != "final_response"),
           calls.foldl (fun a tc =>
             if tc.name = "final_response" then tc.arguments else a) fr) := by
  intro calls
  induction calls with
  | nil => intro acc fr; simp [workerProcessCalls]
  | cons tc rest ih =>
    intro acc fr
    rw [workerProcessCalls]
    by_cases h : tc.name = "final_response"
    · rw [if_pos h, ih]
      simp [List.filter_cons, h]
    · rw [if_neg h, ih]
      simp [List.filter_cons, h]

/-- Value of the final response after the OpenAI tool-call loop: the last
sentinel invocation whose raw arguments parse assigns the value (an
unparseable sentinel keeps the previous value). -/
def oaiFoldFr : List OAIToolCall → Option Json → Option Json
  | [], fr => fr
  | tc :: rest, fr =>
    if tc.ty = "function" ∧ tc.name = "final_response" then
      match jsonParse tc.args with
      | some v => oaiFoldFr rest (some v)
      | none => oaiFoldFr rest fr
    else oaiFoldFr rest fr

/-- The ancillary invocations the OpenAI loop is expected to push: every
function-kind non-sentinel call, in order, with parsed arguments. -/
def oaiExpectedOuts : List OAIToolCall → List OAIOut
  | [] => []
  | tc :: rest =>
    if tc.ty = "function" ∧ tc.name ≠ "final_response" then
      ⟨tc.name, (jsonParse tc.args).getD .null, tc.id⟩ :: oaiExpectedOuts rest
    else oaiExpectedOuts rest

/-- A function-kind sentinel invocation whose arguments parse. -/
def oaiGoodSentinel (tc : OAIToolCall) : Bool :=
  tc.ty == "function" && tc.name == "final_response"
    && (jsonParse tc.args).isSome

/-- Whether some invocation is a parsing sentinel call. -/
def oaiAnyGood : List OAIToolCall → Bool
  | [] => false
  | tc :: rest => oaiGoodSentinel tc || oaiAnyGood rest

theorem oaiFoldFr_isSome :
    ∀ (calls : List OAIToolCall) (fr : Option Json),
      (oaiFoldFr calls fr).isSome = (fr.isSome || oaiAnyGood calls) := by
  intro calls
  induction calls with
  | nil => intro fr; simp [oaiFoldFr, oaiAnyGood]
  | cons tc rest ih =>
    intro fr
    rw [oaiFoldFr, oaiAnyGood]
    by_cases hc : tc.ty = "function" ∧ tc.name = "final_response"
    · rw [if_pos hc]
      cases hp : jsonParse tc.args with
      | some v =>
        rw [ih (some v)]
        have hg : oaiGoodSentinel tc = true := by
          simp [oaiGoodSentinel, hc.1, hc.2, hp]
        rw [hg]
        simp
      | none =>
        rw [ih fr]
        have hg : oaiGoodSentinel tc = false := by
          simp [oaiGoodSentinel, hp]
        rw [hg]
        simp
    · rw [if_neg hc]
      rw [ih fr]
      have hg : oaiGoodSentinel tc = false := by
        simp only [oaiGoodSentinel]
        rcases not_and_or.mp hc with h | h
        · simp [h]
        · simp [h]
      rw [hg]
      simp

theorem oaiAnyGood_iff :
    ∀ calls : List OAIToolCall,
      oaiAnyGood calls = true ↔
        ∃ tc ∈ calls, tc.ty = "function" ∧ tc.name = "final_response"
          ∧ (jsonParse tc.args).isSome := by
  intro calls
  induction calls with
  | nil => simp [oaiAnyGood]
  | cons tc rest ih =>
    rw [oaiAnyGood, Bool.or_eq_true, ih]
    constructor
    · rintro (hg | ⟨tc', htc', h⟩)
      · simp only [oaiGoodSentinel, Bool.and_eq_true, beq_iff_eq] at hg
        exact ⟨tc, List.mem_cons_self tc rest, hg.1.1, hg.1.2, hg.2⟩
      · exact ⟨tc', List.mem_cons_of_mem _ htc', h⟩
    · rintro ⟨tc', htc', h⟩
      rcases List.mem_cons.mp htc' with rfl | hmem
      · refine Or.inl ?_
        simp only [oaiGoodSentinel, Bool.and_eq_true, beq_iff_eq]
        exact ⟨⟨h.1, h.2.1⟩, h.2.2⟩
      · exact Or.inr ⟨tc', hmem, h⟩

theorem openaiProcessCalls_spec :
    ∀ (calls : List OAIToolCall) (acc : List OAIOut) (fr : Option Json),
      (∀ tc ∈ calls, tc.ty = "function" → tc.name ≠ "final_response" →
        (jsonParse tc.args).isSome) →
      openaiProcessCalls calls acc fr
        = .ok (acc.reverse ++ oaiExpectedOuts calls, oaiFoldFr calls fr) := by
  intro calls
  induction calls with
  | nil =>
    intro acc fr _
    simp [openaiProcessCalls, oaiExpectedOuts, oaiFoldFr]
  | cons tc rest ih =>
    intro acc fr hparse
    have hrest : ∀ tc' ∈ rest, tc'.ty = "function" →
        tc'.name ≠ "final_response" → (jsonParse tc'.args).isSome :=
      fun tc' h => hparse tc' (List.mem_cons_of_mem _ h)
    rw [openaiProcessCalls, oaiExpectedOuts, oaiFoldFr]
    by_cases hty : tc.ty = "function"
    · rw [if_neg (by simpa using hty)]
      by_cases hname : tc.name = "final_response"
      · have hc1 : ¬(tc.ty = "function" ∧ tc.name ≠ "final_response") :=
          fun h => h.2 hname
        have hc2 : tc.ty = "function" ∧ tc.name = "final_response" :=
          ⟨hty, hname⟩
        rw [if_pos hname, if_neg hc1, if_pos hc2]
        cases hp : jsonParse tc.args with
        | some v => exact ih acc (some v) hrest
        | none => exact ih acc fr hrest
      · have hc1 : tc.ty = "function" ∧ tc.name ≠ "final_response" :=
          ⟨hty, hname⟩
        have hc2 : ¬(tc.ty = "function" ∧ tc.name = "final_response") :=
          fun h => hname h.2
        rw [if_neg hname, if_pos hc1, if_neg hc2]
        have hps : (jsonParse tc.args).isSome :=
          hparse tc (List.mem_cons_self tc rest) hty hname
        cases hp : jsonParse tc.args with
        | some v =>
          dsimp only
          rw [ih (⟨tc.name, v, tc.id⟩ :: acc) fr hrest]
          simp
        | none => rw [hp] at hps; exact absurd hps (by simp)
    · have hc1 : ¬(tc.ty = "function" ∧ tc.name ≠ "final_response") :=
        fun h => hty h.1
      have hc2 : ¬(tc.ty = "function" ∧ tc.name = "final_response") :=
        fun h => hty h.1
      rw [if_pos (by simpa using hty), if_neg hc1, if_neg hc2]
      exact ih acc fr hrest

/-- Concatenation of the (truthy) text parts of a Gemini turn, from a given
starting string (the adapter's `content` accumulator; an absent or empty
text contributes nothing). -/
def gemTextsFrom : String → List GemPart → String
  | content, [] => content
  | content, p :: rest => gemTextsFrom (content ++ p.text.getD "") rest

/-- Value of the final response after the Gemini part loop: the last
sentinel function call assigns its (possibly absent) arguments. -/
def gemFoldFr : List GemPart → Option Json → Option Json
  | [], fr => fr
  | p :: rest, fr =>
    match p.functionCall with
    | some fc =>
      if fc.name = "final_response" then gemFoldFr rest fc.args
      else gemFoldFr rest fr
    | none => gemFoldFr rest fr

/-- Name/argument pairs of the non-sentinel function calls of a Gemini
turn, in order. -/
def gemExpectedPairs : List GemPart → List (String × Option Json)
  | [] => []
  | p :: rest =>
    match p.functionCall with
    | some fc =>
      if fc.name = "final_response" then gemExpectedPairs rest
      else (fc.name, fc.args) :: gemExpectedPairs rest
    | none => gemExpectedPairs rest

theorem geminiProcessParts_spec (uuid : Nat → String) :
    ∀ (parts : List GemPart) (n : Nat) (content : String)
      (acc : List GemOut) (fr : Option Json),
      (geminiProcessParts uuid parts n content acc fr).1
          = gemTextsFrom content parts
      ∧ ((geminiProcessParts uuid parts n content acc fr).2.1).map
            (fun o => (o.name, o.arguments))
          = acc.reverse.map (fun o => (o.name, o.arguments))
            ++ gemExpectedPairs parts
      ∧ (geminiProcessParts uuid parts n content acc fr).2.2
          = gemFoldFr parts fr := by
  intro parts
  induction parts with
  | nil =>
    intro n content acc fr
    simp [geminiProcessParts, gemTextsFrom, gemExpectedPairs, gemFoldFr]
  | cons p rest ih =>
    intro n content acc fr
    rw [geminiProcessParts, gemTextsFrom, gemExpectedPairs, gemFoldFr]
    cases hfc : p.functionCall with
    | some fc =>
      dsimp only
      by_cases hname : fc.name = "final_response"
      · rw [if_pos hname, if_pos hname, if_pos hname]
        exact ih n (content ++ p.text.getD "") acc fc.args
      · rw [if_neg hname, if_neg hname, if_neg hname]
        obtain ⟨h1, h2, h3⟩ := ih (n + 1) (content ++ p.text.getD "")
          (⟨fc.name, fc.args, "call_" ++ uuid n⟩ :: acc) fr
        refine ⟨h1, ?_, h3⟩
        rw [h2]
        simp
    | none =>
      dsimp only
      exact ih n (content ++ p.text.getD "") acc fr

set_option maxRecDepth 8000 in
/-- C1 counterexample: the claim fails on the code in four ways, each at a
concrete input.  (1) The OpenAI adapter creates its client before the try
block, so a missing `OPENAI_API_KEY` propagates as a thrown error instead
of a failure result.  (2) So does, with the key present, a missing
`CLOUDFLARE_ACCOUNT_ID`: `createOpenAIClient` builds the client base URL
through `getAIGatewayUrl`, which throws on it, still before the try block.
(3) In the OpenAI adapter a malformed non-sentinel invocation aborts
assembly through the outer catch, so a turn whose sentinel was invoked
with successfully parsed arguments still yields `is_success = false`,
refuting the stated iff.  (4) The Gemini adapter builds the sentinel tool
before the try block, so an absent schema propagates as a thrown error. -/
theorem structured_with_tools_counterexample :
    openaiGenerateStructuredWithTools none (some "acct")
        (.reply ⟨none, none⟩) = .error "Missing OPENAI_API_KEY"
    ∧ openaiGenerateStructuredWithTools (some "sk") none
        (.reply ⟨none, none⟩)
      = .error "Missing CLOUDFLARE_ACCOUNT_ID in environment variables"
    ∧ openaiGenerateStructuredWithTools (some "sk") (some "acct")
        (.reply ⟨none,
          some [⟨"function", "id1", "final_response", "\x7b\x7d"⟩,
                ⟨"function", "id2", "lookup", "not json"⟩]⟩)
      = .ok { is_success := false, tool_calls := none, response := none,
              content := none, error := some jsonParseErrorMessage }
    ∧ geminiGenerateStructuredWithTools (some "gk") none (fun _ => "u")
        (.reply none)
      = .error "TypeError: Cannot read properties of null reading _def" :=
  ⟨rfl, rfl, rfl, rfl⟩

theorem workerGSWT_reply (z : ZodSchemaModel) (resp : Option Json)
    (calls : List WAIToolCall) :
    workerGenerateStructuredWithTools (some z) (.reply ⟨resp, some calls⟩)
      = .ok { is_success := (sentinelArgsWAI calls).isSome,
              tool_calls :=
                if (calls.filter (fun tc => tc.name != "final_response")).length > 0
                then some (calls.filter (fun tc => tc.name != "final_response"))
                else none,
              response := sentinelArgsWAI calls,
              content := match resp with
                | some v => if v.truthy then some (jsStringOf v) else none
                | none => none,
              error := if (sentinelArgsWAI calls).isSome then none
                else some "Model did not call final_response tool" } := by
  simp only [workerGenerateStructuredWithTools, toWorkerAITool,
    zodToJsonSchemaModel, Option.getD_some]
  simp [workerProcessCalls_spec calls [] none, sentinelArgsWAI]

theorem openaiGSWT_reply (key acct : String) (content : Option String)
    (calls : List OAIToolCall)
    (hparse : ∀ tc ∈ calls, tc.ty = "function" → tc.name ≠ "final_response" →
      (jsonParse tc.args).isSome) :
    openaiGenerateStructuredWithTools (some key) (some acct)
        (.reply ⟨content, some calls⟩)
      = .ok { is_success := (oaiFoldFr calls none).isSome,
              tool_calls := if (oaiExpectedOuts calls).length > 0
                then some (oaiExpectedOuts calls) else none,
              response := oaiFoldFr calls none,
              content := match content with
                | some c => if c = "" then none else some c
                | none => none,
              error := if (oaiFoldFr calls none).isSome then none
                else some "Model did not call final_response tool" } := by
  simp only [openaiGenerateStructuredWithTools, Option.getD_some]
  simp [openaiProcessCalls_spec calls [] none hparse]

set_option maxRecDepth 4000 in
theorem geminiGSWT_reply (key : String) (z : ZodSchemaModel)
    (uuid : Nat → String) (parts : List GemPart) :
    ∃ tcs : List GemOut,
      geminiGenerateStructuredWithTools (some key) (some z) uuid
          (.reply (some ⟨some parts⟩))
        = .ok { is_success := (gemFoldFr parts none).isSome,
                tool_calls := if tcs.length > 0 then some tcs else none,
                response := gemFoldFr parts none,
                content := if gemTextsFrom "" parts = "" then none
                  else some (gemTextsFrom "" parts),
                error := if (gemFoldFr parts none).isSome then none
                  else some "Model did not call final_response" }
      ∧ tcs.map (fun o => (o.name, o.arguments)) = gemExpectedPairs parts := by
  obtain ⟨h1, h2, h3⟩ := geminiProcessParts_spec uuid parts 0 "" [] none
  set T := (geminiProcessParts uuid parts 0 "" [] none).2.1 with hT
  refine ⟨T, ?_, by simpa [hT] using h2⟩
  have htriple : geminiProcessParts uuid parts 0 "" [] none
      = (gemTextsFrom "" parts, T, gemFoldFr parts none) := by
    rw [hT, ← h1, ← h3]
  simp only [geminiGenerateStructuredWithTools, toGeminiTool,
    zodToJsonSchemaModel, Option.getD_some, htriple]

/-- C1 (amended): the structured-with-tools path captures its failures in
the result instead of throwing, with the caveats the counterexample forces:
the Worker AI adapter never throws (all its work is inside the try block);
the OpenAI adapter throws exactly when client construction fails — a
missing `OPENAI_API_KEY`, or, with the key present, the missing
`CLOUDFLARE_ACCOUNT_ID` that `getAIGatewayUrl` needs for the gateway base
URL, both checked before its try block — and with both present never
throws; the Gemini adapter requires its jointly guarded credentials
(`GEMINI_API_KEY` and `CLOUDFLARE_ACCOUNT_ID`) and the sentinel schema to
be present (all dereferenced before its try block).
Whenever a result is returned, `is_success = false` comes with a populated
error field and success with an absent one.  Success holds iff the sentinel
was invoked and yielded a value: for OpenAI, iff some sentinel invocation's
arguments parse — provided every non-sentinel function invocation's
arguments parse (a malformed one aborts assembly into a failure result);
for Worker AI and Gemini, whose backends deliver structured arguments
without parsing, iff the last sentinel invocation carries arguments. -/
theorem structured_with_tools_failures_captured :
    (∀ (schema : Option ZodSchemaModel) (outcome : WAIOutcome),
      ∃ r, workerGenerateStructuredWithTools schema outcome = .ok r
        ∧ (r.is_success = false → r.error.isSome)
        ∧ (r.is_success = true → r.error = none))
    ∧ (∀ (z : ZodSchemaModel) (resp : Option Json) (calls : List WAIToolCall)
        (r : StructuredToolResponse WAIToolCall),
        workerGenerateStructuredWithTools (some z) (.reply ⟨resp, some calls⟩)
          = .ok r →
        (r.is_success = true ↔ (sentinelArgsWAI calls).isSome))
    ∧ (∀ (schema : Option ZodSchemaModel) (m : String),
        ∃ r, workerGenerateStructuredWithTools schema (.fail m) = .ok r
          ∧ r.is_success = false ∧ r.error.isSome)
    ∧ (∀ (accountId : Option String) (outcome : OAIOutcome),
        openaiGenerateStructuredWithTools none accountId outcome
          = .error "Missing OPENAI_API_KEY")
    ∧ (∀ (key : String) (outcome : OAIOutcome),
        openaiGenerateStructuredWithTools (some key) none outcome
          = .error "Missing CLOUDFLARE_ACCOUNT_ID in environment variables")
    ∧ (∀ (key acct : String) (outcome : OAIOutcome),
        ∃ r, openaiGenerateStructuredWithTools (some key) (some acct) outcome
            = .ok r
          ∧ (r.is_success = false → r.error.isSome)
          ∧ (r.is_success = true → r.error = none))
    ∧ (∀ (key acct m : String),
        openaiGenerateStructuredWithTools (some key) (some acct) (.fail m)
          = .ok { is_success := false, tool_calls := none, response := none,
                  content := none, error := some (jsErrorMessage m) })
    ∧ (∀ (key acct : String) (content : Option String)
        (calls : List OAIToolCall) (r : StructuredToolResponse OAIOut),
        (∀ tc ∈ calls, tc.ty = "function" → tc.name ≠ "final_response" →
          (jsonParse tc.args).isSome) →
        openaiGenerateStructuredWithTools (some key) (some acct)
            (.reply ⟨content, some calls⟩) = .ok r →
        (r.is_success = true ↔ ∃ tc ∈ calls, tc.ty = "function"
          ∧ tc.name = "final_response" ∧ (jsonParse tc.args).isSome))
    ∧ (∀ (key : String) (z : ZodSchemaModel) (uuid : Nat → String)
        (outcome : GemOutcome),
        ∃ r, geminiGenerateStructuredWithTools (some key) (some z) uuid outcome
            = .ok r
          ∧ (r.is_success = false → r.error.isSome)
          ∧ (r.is_success = true → r.error = none))
    ∧ (∀ (key : String) (z : ZodSchemaModel) (uuid : Nat → String)
        (parts : List GemPart) (r : StructuredToolResponse GemOut),
        geminiGenerateStructuredWithTools (some key) (some z) uuid
            (.reply (some ⟨some parts⟩)) = .ok r →
        (r.is_success = true ↔ (gemFoldFr parts none).isSome)) := by
  refine ⟨?_, ?_, ?_, ?_, ?_, ?_, ?_, ?_, ?_, ?_⟩
  · intro schema outcome
    cases schema with
    | none => exact ⟨_, rfl, fun _ => rfl, fun h => by simp at h⟩
    | some z =>
      cases outcome with
      | fail m => exact ⟨_, rfl, fun _ => rfl, fun h => by simp at h⟩
      | reply result =>
        obtain ⟨resp, otcs⟩ := result
        cases otcs with
        | none => exact ⟨_, rfl, fun _ => rfl, fun h => by simp at h⟩
        | some calls =>
          refine ⟨_, workerGSWT_reply z resp calls, ?_, ?_⟩
          · intro h
            simp only at h
            simp [h]
          · intro h
            simp only at h
            simp [h]
  · intro z resp calls r hr
    rw [workerGSWT_reply z resp calls] at hr
    simp only [Except.ok.injEq] at hr
    subst hr
    simp
  · intro schema m
    cases schema with
    | none => exact ⟨_, rfl, rfl, rfl⟩
    | some z => exact ⟨_, rfl, rfl, rfl⟩
  · intro accountId outcome
    rfl
  · intro key outcome
    rfl
  · intro key acct outcome
    cases outcome with
    | fail m => exact ⟨_, rfl, fun _ => rfl, fun h => by simp at h⟩
    | reply msg =>
      obtain ⟨content, otcs⟩ := msg
      cases otcs with
      | none => exact ⟨_, rfl, fun _ => rfl, fun h => by simp at h⟩
      | some calls =>
        simp only [openaiGenerateStructuredWithTools, Option.getD_some]
        cases hp : openaiProcessCalls calls [] none with
        | error m => exact ⟨_, rfl, fun _ => rfl, fun h => by simp at h⟩
        | ok pair =>
          obtain ⟨tcs, fr⟩ := pair
          refine ⟨_, rfl, ?_, ?_⟩
          · intro h
            simp only at h
            simp [h]
          · intro h
            simp only at h
            simp [h]
  · intro key acct m
    rfl
  · intro key acct content calls r hparse hr
    rw [openaiGSWT_reply key acct content calls hparse] at hr
    simp only [Except.ok.injEq] at hr
    subst hr
    simp only [oaiFoldFr_isSome calls none]
    rw [show (none : Option Json).isSome = false from rfl]
    rw [Bool.false_or]
    exact oaiAnyGood_iff calls
  · intro key z uuid outcome
    cases outcome with
    | fail m => exact ⟨_, rfl, fun _ => rfl, fun h => by simp at h⟩
    | reply ocand =>
      cases ocand with
      | none => exact ⟨_, rfl, fun _ => rfl, fun h => by simp at h⟩
      | some cand =>
        obtain ⟨oparts⟩ := cand
        cases oparts with
        | none => exact ⟨_, rfl, fun _ => rfl, fun h => by simp at h⟩
        | some parts =>
          obtain ⟨tcs, heq, hmap⟩ := geminiGSWT_reply key z uuid parts
          refine ⟨_, heq, ?_, ?_⟩
          · intro h
            simp only at h
            simp [h]
          · intro h
            simp only at h
            simp [h]
  · intro key z uuid parts r hr
    obtain ⟨tcs, heq, hmap⟩ := geminiGSWT_reply key z uuid parts
    rw [heq] at hr
    simp only [Except.ok.injEq] at hr
    subst hr
    simp

/-- A concrete non-null Zod schema model used by witnesses. -/
def sampleZodObject : ZodSchemaModel :=
  ⟨"ZodObject", .obj [("type", .str "object"), ("properties", .obj [])]⟩

set_option maxRecDepth 8000 in
theorem structured_with_tools_failures_captured_witness :
    ((StructuredToolResponse.mk true none (some (Json.obj [])) none none
        : StructuredToolResponse WAIToolCall).is_success = true
      ↔ (sentinelArgsWAI [⟨"final_response", some (.obj [])⟩]).isSome)
    ∧ ((StructuredToolResponse.mk true none (some (Json.obj [])) none none
        : StructuredToolResponse OAIOut).is_success = true
      ↔ ∃ tc ∈ [(⟨"function", "id1", "final_response", "\x7b\x7d"⟩ : OAIToolCall)],
          tc.ty = "function" ∧ tc.name = "final_response"
            ∧ (jsonParse tc.args).isSome) := by
  constructor
  · exact structured_with_tools_failures_captured.2.1 sampleZodObject none
      [⟨"final_response", some (.obj [])⟩] _ (by rfl)
  · refine structured_with_tools_failures_captured.2.2.2.2.2.2.2.1 "sk" "acct"
      none [⟨"function", "id1", "final_response", "\x7b\x7d"⟩] _ ?_ (by rfl)
    intro tc htc hty hname
    simp only [List.mem_singleton] at htc
    subst htc
    exact absurd rfl hname

theorem lengthGuard_getD {α : Type} (l : List α) :
    (if l.length > 0 then some l else none).getD [] = l := by
  by_cases h : l.length > 0
  · simp [h]
  · have : l = [] := List.eq_nil_of_length_eq_zero (Nat.eq_zero_of_not_pos h)
    simp [h, this]

theorem oaiExpectedOuts_no_sentinel :
    ∀ calls : List OAIToolCall,
      ∀ out ∈ oaiExpectedOuts calls, out.name ≠ "final_response" := by
  intro calls
  induction calls with
  | nil => simp [oaiExpectedOuts]
  | cons tc rest ih =>
    intro out hout
    rw [oaiExpectedOuts] at hout
    by_cases hc : tc.ty = "function" ∧ tc.name ≠ "final_response"
    · rw [if_pos hc] at hout
      rcases List.mem_cons.mp hout with rfl | hmem
      · exact hc.2
      · exact ih out hmem
    · rw [if_neg hc] at hout
      exact ih out hout

theorem gemExpectedPairs_no_sentinel :
    ∀ parts : List GemPart,
      ∀ p ∈ gemExpectedPairs parts, p.1 ≠ "final_response" := by
  intro parts
  induction parts with
  | nil => simp [gemExpectedPairs]
  | cons part rest ih =>
    intro p hp
    rw [gemExpectedPairs] at hp
    cases hfc : part.functionCall with
    | some fc =>
      rw [hfc] at hp
      dsimp only at hp
      by_cases hname : fc.name = "final_response"
      · rw [if_pos hname] at hp
        exact ih p hp
      · rw [if_neg hname] at hp
        rcases List.mem_cons.mp hp with rfl | hmem
        · exact hname
        · exact ih p hmem
    | none =>
      rw [hfc] at hp
      exact ih p hp

/-- C7: in every adapter's result assembly, the sentinel invocation's value
becomes the structured response, every other (function-kind) invocation
appears in the ancillary tool_calls in order — the sentinel never among
them — and the turn's free-text content is retained separately in the
content field (empty text counts as no content).  For the OpenAI adapter
the invocations' raw argument strings must parse (the payloads the claim's
assembly description presupposes); the Worker AI and Gemini backends
deliver structured arguments directly. -/
theorem structured_with_tools_result_assembly :
    (∀ (key acct : String) (content : Option String) (calls : List OAIToolCall)
      (r : StructuredToolResponse OAIOut),
      (∀ tc ∈ calls, tc.ty = "function" → tc.name ≠ "final_response" →
        (jsonParse tc.args).isSome) →
      openaiGenerateStructuredWithTools (some key) (some acct)
          (.reply ⟨content, some calls⟩) = .ok r →
        r.response = oaiFoldFr calls none
        ∧ r.tool_calls.getD [] = oaiExpectedOuts calls
        ∧ (∀ out ∈ r.tool_calls.getD [], out.name ≠ "final_response")
        ∧ r.content = (match content with
            | some c => if c = "" then none else some c
            | none => none))
    ∧ (∀ (z : ZodSchemaModel) (resp : Option Json) (calls : List WAIToolCall)
        (r : StructuredToolResponse WAIToolCall),
        workerGenerateStructuredWithTools (some z) (.reply ⟨resp, some calls⟩)
          = .ok r →
        r.response = sentinelArgsWAI calls
        ∧ r.tool_calls.getD []
            = calls.filter (fun tc => tc.name != "final_response")
        ∧ (∀ out ∈ r.tool_calls.getD [], out.name ≠ "final_response")
        ∧ r.content = (match resp with
            | some v => if v.truthy then some (jsStringOf v) else none
            | none => none))
    ∧ (∀ (key : String) (z : ZodSchemaModel) (uuid : Nat → String)
        (parts : List GemPart) (r : StructuredToolResponse GemOut),
        geminiGenerateStructuredWithTools (some key) (some z) uuid
            (.reply (some ⟨some parts⟩)) = .ok r →
        r.response = gemFoldFr parts none
        ∧ (r.tool_calls.getD []).map (fun o => (o.name, o.arguments))
            = gemExpectedPairs parts
        ∧ (∀ out ∈ r.tool_calls.getD [], out.name ≠ "final_response")
        ∧ r.content = (if gemTextsFrom "" parts = "" then none
            else some (gemTextsFrom "" parts))) := by
  refine ⟨?_, ?_, ?_⟩
  · intro key acct content calls r hparse hr
    rw [openaiGSWT_reply key acct content calls hparse] at hr
    simp only [Except.ok.injEq] at hr
    subst hr
    refine ⟨rfl, ?_, ?_, rfl⟩
    · exact lengthGuard_getD (oaiExpectedOuts calls)
    · intro out hout
      rw [lengthGuard_getD] at hout
      exact oaiExpectedOuts_no_sentinel calls out hout
  · intro z resp calls r hr
    rw [workerGSWT_reply z resp calls] at hr
    simp only [Except.ok.injEq] at hr
    subst hr
    refine ⟨rfl, ?_, ?_, rfl⟩
    · exact lengthGuard_getD _
    · intro out hout
      rw [lengthGuard_getD] at hout
      have := List.of_mem_filter hout
      simpa using this
  · intro key z uuid parts r hr
    obtain ⟨tcs, heq, hmap⟩ := geminiGSWT_reply key z uuid parts
    rw [heq] at hr
    simp only [Except.ok.injEq] at hr
    subst hr
    refine ⟨rfl, ?_, ?_, rfl⟩
    · rw [lengthGuard_getD]
      exact hmap
    · intro out hout
      rw [lengthGuard_getD] at hout
      have hpair : (out.name, out.arguments) ∈ gemExpectedPairs parts := by
        rw [← hmap]
        exact List.mem_map_of_mem _ hout
      exact gemExpectedPairs_no_sentinel parts (out.name, out.arguments) hpair

set_option maxRecDepth 8000 in
theorem structured_with_tools_result_assembly_witness :
    ((StructuredToolResponse.mk true
        (some [⟨"lookup", some (.str "q")⟩]) (some (Json.obj []))
        (some "done") none : StructuredToolResponse WAIToolCall).response
      = sentinelArgsWAI
          [⟨"lookup", some (.str "q")⟩, ⟨"final_response", some (.obj [])⟩])
    ∧ ((StructuredToolResponse.mk true
        (some [⟨"lookup", some (.str "q")⟩]) (some (Json.obj []))
        (some "done") none : StructuredToolResponse WAIToolCall).tool_calls.getD []
      = List.filter (fun tc => tc.name != "final_response")
          [⟨"lookup", some (.str "q")⟩, ⟨"final_response", some (.obj [])⟩]) := by
  have h := structured_with_tools_result_assembly.2.1 sampleZodObject
    (some (.str "done"))
    [⟨"lookup", some (.str "q")⟩, ⟨"final_response", some (.obj [])⟩]
    (StructuredToolResponse.mk true
      (some [⟨"lookup", some (.str "q")⟩]) (some (Json.obj []))
      (some "done") none)
    (by rfl)
  exact ⟨h.1, h.2.1⟩

/-- A node of the JavaScript object heap: primitives, or an array/object
whose children are heap addresses. -/
inductive HNode where
  | hnull
  | hbool (b : Bool)
  | hnum (n : Int)
  | hstr (s : String)
  | harr (elems : List Nat)
  | hobj (entries : List (String × Nat))

/-- The heap: a store of nodes and the next fresh address; every address
at or above `next` is unallocated. -/
structure Heap where
  mem : Nat → HNode
  next : Nat

/-- The child addresses of a node. -/
def childAddrs : HNode → List Nat
  | .harr xs => xs
  | .hobj es => es.map Prod.snd
  | _ => []

/-- Allocate a node at the next fresh address. -/
def alloc (h : Heap) (n : HNode) : Heap × Nat :=
  ({ mem := fun b => if b = h.next then n else h.mem b, next := h.next + 1 },
   h.next)

/-- Overwrite the node stored at an address. -/
def setMem (h : Heap) (a : Nat) (n : HNode) : Heap :=
  { mem := fun b => if b = a then n else h.mem b, next := h.next }

/-- JavaScript truthiness of a heap node. -/
def truthyNode : HNode → Bool
  | .hnull => false
  | .hbool b => b
  | .hnum n => n != 0
  | .hstr s => s ≠ ""
  | .harr _ => true
  | .hobj _ => true

/-- First-match lookup of a key among an object node's entries. -/
def lookupAddr (es : List (String × Nat)) (k : String) : Option Nat :=
  match es with
  | [] => none
  | (k', a) :: rest => if k' = k then some a else lookupAddr rest k

mutual

/-- `JSON.parse` of the serialized input: allocates an entirely fresh tree
of nodes for a JSON value, bottom-up. -/
def encode : Json → Heap → Heap × Nat
  | .null, h => alloc h .hnull
  | .bool b, h => alloc h (.hbool b)
  | .num n, h => alloc h (.hnum n)
  | .str s, h => alloc h (.hstr s)
  | .arr xs, h =>
    let p := encodeList xs h
    alloc p.1 (.harr p.2)
  | .obj kvs, h =>
    let p := encodeEntries kvs h
    alloc p.1 (.hobj p.2)

/-- Encode the elements of an array, left to right. -/
def encodeList : List Json → Heap → Heap × List Nat
  | [], h => (h, [])
  | v :: rest, h =>
    let p := encode v h
    let q := encodeList rest p.1
    (q.1, p.2 :: q.2)

/-- Encode the entries of an object, left to right. -/
def encodeEntries : List (String × Json) → Heap → Heap × List (String × Nat)
  | [], h => (h, [])
  | (k, v) :: rest, h =>
    let p := encode v h
    let q := encodeEntries rest p.1
    (q.1, (k, p.2) :: q.2)

end

mutual

/-- The in-place `clean` of the schema normalizers, on the heap: on an
object node the banned keys are deleted (the node is overwritten), then
the values of a truthy `properties` member and a truthy `items` member are
cleaned recursively; every other node is left untouched.  `fuel` bounds
the recursion (the encoded copy is a finite tree, so enough fuel exists;
the frame properties below hold for every fuel). -/
def cleanHeap (banned : List String) : Nat → Heap → Nat → Heap
  | 0, h, _ => h
  | fuel + 1, h, a =>
    match h.mem a with
    | .hobj ents =>
      let ents1 := ents.filter (fun e => !(banned.contains e.1))
      let h1 := setMem h a (.hobj ents1)
      let h2 := match lookupAddr ents1 "properties" with
        | some p =>
          match h1.mem p with
          | .hobj pents => cleanHeapList banned fuel h1 (pents.map Prod.snd)
          | .harr addrs => cleanHeapList banned fuel h1 addrs
          | _ => h1
        | none => h1
      match lookupAddr ents1 "items" with
      | some it =>
        if truthyNode (h2.mem it) then cleanHeap banned fuel h2 it else h2
      | none => h2
    | _ => h
termination_by fuel _ _ => (fuel, 0)

/-- Clean each address of a list in order (the `for..in` loops). -/
def cleanHeapList (banned : List String) : Nat → Heap → List Nat → Heap
  | _, h, [] => h
  | fuel, h, a :: rest =>
    cleanHeapList banned fuel (cleanHeap banned fuel h a) rest
termination_by fuel _ l => (fuel, l.length + 1)

end

theorem alloc_case_spec (h : Heap) (n : HNode) (hn : childAddrs n = []) :
    h.next ≤ (alloc h n).1.next
    ∧ (∀ b, b < h.next → (alloc h n).1.mem b = h.mem b)
    ∧ h.next ≤ (alloc h n).2
    ∧ (alloc h n).2 < (alloc h n).1.next
    ∧ (∀ x, h.next ≤ x → x < (alloc h n).1.next →
        ∀ c ∈ childAddrs ((alloc h n).1.mem x),
          h.next ≤ c ∧ c < (alloc h n).1.next) := by
  refine ⟨Nat.le_succ _, ?_, Nat.le_refl _, Nat.lt_succ_self _, ?_⟩
  · intro b hb
    show (if b = h.next then n else h.mem b) = h.mem b
    rw [if_neg (by omega)]
  · intro x hx1 hx2 c hc
    have hx2' : x < h.next + 1 := hx2
    have hx : x = h.next := by omega
    subst hx
    rw [show (alloc h n).1.mem h.next = n from by
      show (if h.next = h.next then n else h.mem h.next) = n
      rw [if_pos rfl]] at hc
    rw [hn] at hc
    exact absurd hc (List.not_mem_nil c)

theorem alloc_node_spec (h0 h1 : Heap) (n : HNode)
    (hmono : h0.next ≤ h1.next)
    (hpres : ∀ b, b < h0.next → h1.mem b = h0.mem b)
    (hclosed : ∀ x, h0.next ≤ x → x < h1.next →
      ∀ c ∈ childAddrs (h1.mem x), h0.next ≤ c ∧ c < h1.next)
    (hchild : ∀ c ∈ childAddrs n, h0.next ≤ c ∧ c < h1.next) :
    h0.next ≤ (alloc h1 n).1.next
    ∧ (∀ b, b < h0.next → (alloc h1 n).1.mem b = h0.mem b)
    ∧ h0.next ≤ (alloc h1 n).2
    ∧ (alloc h1 n).2 < (alloc h1 n).1.next
    ∧ (∀ x, h0.next ≤ x → x < (alloc h1 n).1.next →
        ∀ c ∈ childAddrs ((alloc h1 n).1.mem x),
          h0.next ≤ c ∧ c < (alloc h1 n).1.next) := by
  have hne : (alloc h1 n).1.next = h1.next + 1 := rfl
  refine ⟨by omega, ?_, hmono, by show h1.next < h1.next + 1; omega, ?_⟩
  · intro b hb
    show (if b = h1.next then n else h1.mem b) = h0.mem b
    rw [if_neg (by omega)]
    exact hpres b hb
  · intro x hx1 hx2 c hc
    have hx2' : x < h1.next + 1 := hx2
    by_cases hx : x < h1.next
    · rw [show (alloc h1 n).1.mem x = h1.mem x from by
        show (if x = h1.next then n else h1.mem x) = h1.mem x
        rw [if_neg (by omega)]] at hc
      obtain ⟨hc1, hc2⟩ := hclosed x hx1 hx c hc
      exact ⟨hc1, by omega⟩
    · have hx' : x = h1.next := by omega
      subst hx'
      rw [show (alloc h1 n).1.mem h1.next = n from by
        show (if h1.next = h1.next then n else h1.mem h1.next) = n
        rw [if_pos rfl]] at hc
      obtain ⟨hc1, hc2⟩ := hchild c hc
      exact ⟨hc1, by omega⟩

theorem closure_compose (h0 h1 h2 : Heap)
    (m12 : h1.next ≤ h2.next)
    (p12 : ∀ b, b < h1.next → h2.mem b = h1.mem b)
    (c01 : ∀ x, h0.next ≤ x → x < h1.next →
      ∀ c ∈ childAddrs (h1.mem x), h0.next ≤ c ∧ c < h1.next)
    (c12 : ∀ x, h1.next ≤ x → x < h2.next →
      ∀ c ∈ childAddrs (h2.mem x), h1.next ≤ c ∧ c < h2.next)
    (m01 : h0.next ≤ h1.next) :
    ∀ x, h0.next ≤ x → x < h2.next →
      ∀ c ∈ childAddrs (h2.mem x), h0.next ≤ c ∧ c < h2.next := by
  intro x hx1 hx2 c hc
  by_cases hx : x < h1.next
  · rw [p12 x hx] at hc
    obtain ⟨hc1, hc2⟩ := c01 x hx1 hx c hc
    exact ⟨hc1, by omega⟩
  · obtain ⟨hc1, hc2⟩ := c12 x (by omega) hx2 c hc
    exact ⟨by omega, hc2⟩

mutual

theorem encode_spec : ∀ (v : Json) (h : Heap),
    h.next ≤ (encode v h).1.next
    ∧ (∀ b, b < h.next → (encode v h).1.mem b = h.mem b)
    ∧ h.next ≤ (encode v h).2
    ∧ (encode v h).2 < (encode v h).1.next
    ∧ (∀ x, h.next ≤ x → x < (encode v h).1.next →
        ∀ c ∈ childAddrs ((encode v h).1.mem x),
          h.next ≤ c ∧ c < (encode v h).1.next)
  | .null, h => alloc_case_spec h .hnull rfl
  | .bool b, h => alloc_case_spec h (.hbool b) rfl
  | .num n, h => alloc_case_spec h (.hnum n) rfl
  | .str s, h => alloc_case_spec h (.hstr s) rfl
  | .arr xs, h => by
    obtain ⟨m, p, la, cl⟩ := encodeList_spec xs h
    exact alloc_node_spec h (encodeList xs h).1 (.harr (encodeList xs h).2)
      m p cl la
  | .obj kvs, h => by
    obtain ⟨m, p, la, cl⟩ := encodeEntries_spec kvs h
    exact alloc_node_spec h (encodeEntries kvs h).1
      (.hobj (encodeEntries kvs h).2) m p cl la

theorem encodeList_spec : ∀ (xs : List Json) (h : Heap),
    h.next ≤ (encodeList xs h).1.next
    ∧ (∀ b, b < h.next → (encodeList xs h).1.mem b = h.mem b)
    ∧ (∀ c ∈ (encodeList xs h).2, h.next ≤ c ∧ c < (encodeList xs h).1.next)
    ∧ (∀ x, h.next ≤ x → x < (encodeList xs h).1.next →
        ∀ c ∈ childAddrs ((encodeList xs h).1.mem x),
          h.next ≤ c ∧ c < (encodeList xs h).1.next)
  | [], h => by
    refine ⟨Nat.le_refl _, fun b _ => rfl, ?_, ?_⟩
    · intro c hc
      exact absurd hc (List.not_mem_nil c)
    · intro x hx1 hx2
      have hx2' : x < h.next := hx2
      omega
  | v :: rest, h => by
    obtain ⟨m1, p1, r1, r2, c1⟩ := encode_spec v h
    obtain ⟨m2, p2, la2, c2⟩ := encodeList_spec rest (encode v h).1
    have e1 : (encodeList (v :: rest) h).1
        = (encodeList rest (encode v h).1).1 := rfl
    have e2 : (encodeList (v :: rest) h).2
        = (encode v h).2 :: (encodeList rest (encode v h).1).2 := rfl
    rw [e1, e2]
    refine ⟨by omega, ?_, ?_, ?_⟩
    · intro b hb
      rw [p2 b (by omega)]
      exact p1 b hb
    · intro c hc
      rcases List.mem_cons.mp hc with rfl | hmem
      · exact ⟨r1, by omega⟩
      · obtain ⟨hc1, hc2⟩ := la2 c hmem
        exact ⟨by omega, hc2⟩
    · exact closure_compose h (encode v h).1
        (encodeList rest (encode v h).1).1 m2 p2 c1 c2 m1

theorem encodeEntries_spec : ∀ (kvs : List (String × Json)) (h : Heap),
    h.next ≤ (encodeEntries kvs h).1.next
    ∧ (∀ b, b < h.next → (encodeEntries kvs h).1.mem b = h.mem b)
    ∧ (∀ c ∈ ((encodeEntries kvs h).2).map Prod.snd,
        h.next ≤ c ∧ c < (encodeEntries kvs h).1.next)
    ∧ (∀ x, h.next ≤ x → x < (encodeEntries kvs h).1.next →
        ∀ c ∈ childAddrs ((encodeEntries kvs h).1.mem x),
          h.next ≤ c ∧ c < (encodeEntries kvs h).1.next)
  | [], h => by
    refine ⟨Nat.le_refl _, fun b _ => rfl, ?_, ?_⟩
    · intro c hc
      exact absurd hc (List.not_mem_nil c)
    · intro x hx1 hx2
      have hx2' : x < h.next := hx2
      omega
  | (k, v) :: rest, h => by
    obtain ⟨m1, p1, r1, r2, c1⟩ := encode_spec v h
    obtain ⟨m2, p2, la2, c2⟩ := encodeEntries_spec rest (encode v h).1
    have e1 : (encodeEntries ((k, v) :: rest) h).1
        = (encodeEntries rest (encode v h).1).1 := rfl
    have e2 : (encodeEntries ((k, v) :: rest) h).2
        = (k, (encode v h).2) :: (encodeEntries rest (encode v h).1).2 := rfl
    rw [e1, e2]
    refine ⟨by omega, ?_, ?_, ?_⟩
    · intro b hb
      rw [p2 b (by omega)]
      exact p1 b hb
    · intro c hc
      simp only [List.map_cons, List.mem_cons] at hc
      rcases hc with rfl | hmem
      · exact ⟨r1, by omega⟩
      · obtain ⟨hc1, hc2⟩ := la2 c hmem
        exact ⟨by omega, hc2⟩
    · exact closure_compose h (encode v h).1
        (encodeEntries rest (encode v h).1).1 m2 p2 c1 c2 m1

end

mutual

/-- A heap address represents a JSON value: the address is allocated and
its node spells out the value, recursively. -/
def Represents (h : Heap) : Nat → Json → Prop
  | a, .null => a < h.next ∧ h.mem a = .hnull
  | a, .bool b => a < h.next ∧ h.mem a = .hbool b
  | a, .num n => a < h.next ∧ h.mem a = .hnum n
  | a, .str s => a < h.next ∧ h.mem a = .hstr s
  | a, .arr xs =>
    a < h.next ∧ ∃ addrs, h.mem a = .harr addrs ∧ RepresentsList h addrs xs
  | a, .obj kvs =>
    a < h.next ∧ ∃ ents, h.mem a = .hobj ents ∧ RepresentsEntries h ents kvs

/-- Element-wise representation of an array's elements. -/
def RepresentsList (h : Heap) : List Nat → List Json → Prop
  | [], [] => True
  | a :: as, v :: vs => Represents h a v ∧ RepresentsList h as vs
  | _, _ => False

/-- Entry-wise representation of an object's entries. -/
def RepresentsEntries (h : Heap) :
    List (String × Nat) → List (String × Json) → Prop
  | [], [] => True
  | (k, a) :: es, (k', v) :: kvs =>
    k = k' ∧ Represents h a v ∧ RepresentsEntries h es kvs
  | _, _ => False

end

mutual

theorem represents_mono (h h2 : Heap) (hm : h.next ≤ h2.next)
    (hp : ∀ b, b < h.next → h2.mem b = h.mem b) :
    ∀ (a : Nat) (v : Json), Represents h a v → Represents h2 a v
  | a, .null, ⟨ha, hmem⟩ => ⟨by omega, by rw [hp a ha]; exact hmem⟩
  | a, .bool b, ⟨ha, hmem⟩ => ⟨by omega, by rw [hp a ha]; exact hmem⟩
  | a, .num n, ⟨ha, hmem⟩ => ⟨by omega, by rw [hp a ha]; exact hmem⟩
  | a, .str s, ⟨ha, hmem⟩ => ⟨by omega, by rw [hp a ha]; exact hmem⟩
  | a, .arr xs, ⟨ha, addrs, hmem, hl⟩ =>
    ⟨by omega, addrs, by rw [hp a ha]; exact hmem,
      representsList_mono h h2 hm hp addrs xs hl⟩
  | a, .obj kvs, ⟨ha, ents, hmem, he⟩ =>
    ⟨by omega, ents, by rw [hp a ha]; exact hmem,
      representsEntries_mono h h2 hm hp ents kvs he⟩

theorem representsList_mono (h h2 : Heap) (hm : h.next ≤ h2.next)
    (hp : ∀ b, b < h.next → h2.mem b = h.mem b) :
    ∀ (addrs : List Nat) (xs : List Json),
      RepresentsList h addrs xs → RepresentsList h2 addrs xs
  | [], [], _ => trivial
  | a :: as, v :: vs, ⟨hr, hrest⟩ =>
    ⟨represents_mono h h2 hm hp a v hr,
      representsList_mono h h2 hm hp as vs hrest⟩

theorem representsEntries_mono (h h2 : Heap) (hm : h.next ≤ h2.next)
    (hp : ∀ b, b < h.next → h2.mem b = h.mem b) :
    ∀ (es : List (String × Nat)) (kvs : List (String × Json)),
      RepresentsEntries h es kvs → RepresentsEntries h2 es kvs
  | [], [], _ => trivial
  | (k, a) :: es, (k', v) :: kvs, ⟨hk, hr, hrest⟩ =>
    ⟨hk, represents_mono h h2 hm hp a v hr,
      representsEntries_mono h h2 hm hp es kvs hrest⟩

end

/-- Addresses reachable from a root by following child pointers. -/
inductive ReachableHeap (h : Heap) (root : Nat) : Nat → Prop where
  | refl : ReachableHeap h root root
  | step {x c : Nat} : ReachableHeap h root x →
      c ∈ childAddrs (h.mem x) → ReachableHeap h root c

theorem reachable_in_region (h : Heap) (lo hi root : Nat)
    (hclosed : ∀ x, lo ≤ x → x < hi →
      ∀ c ∈ childAddrs (h.mem x), lo ≤ c ∧ c < hi)
    (hroot : lo ≤ root ∧ root < hi) :
    ∀ b, ReachableHeap h root b → lo ≤ b ∧ b < hi := by
  intro b hr
  induction hr with
  | refl => exact hroot
  | step hx hc ih => exact hclosed _ ih.1 ih.2 _ hc

theorem lookupAddr_mem :
    ∀ (es : List (String × Nat)) (k : String) (p : Nat),
      lookupAddr es k = some p → p ∈ es.map Prod.snd := by
  intro es k p
  induction es with
  | nil => intro h; exact absurd h (by simp [lookupAddr])
  | cons e rest ih =>
    obtain ⟨k', a⟩ := e
    intro h
    rw [lookupAddr] at h
    by_cases hk : k' = k
    · rw [if_pos hk, Option.some_inj] at h
      subst h
      exact List.mem_cons_self _ _
    · rw [if_neg hk] at h
      exact List.mem_cons_of_mem _ (ih h)

theorem filter_children_subset (ents : List (String × Nat))
    (f : String × Nat → Bool) :
    ∀ c ∈ (ents.filter f).map Prod.snd, c ∈ ents.map Prod.snd := by
  intro c hc
  obtain ⟨e, he, rfl⟩ := List.mem_map.mp hc
  exact List.mem_map_of_mem _ (List.mem_of_mem_filter he)

mutual

theorem cleanHeap_frame (banned : List String) (fuel : Nat) (h : Heap)
    (a lo hi : Nat)
    (hcl : ∀ x, lo ≤ x → x < hi →
      ∀ c ∈ childAddrs (h.mem x), lo ≤ c ∧ c < hi)
    (ha1 : lo ≤ a) (ha2 : a < hi) :
    (∀ b, b < lo ∨ hi ≤ b → (cleanHeap banned fuel h a).mem b = h.mem b)
    ∧ (cleanHeap banned fuel h a).next = h.next
    ∧ (∀ x, lo ≤ x → x < hi →
        ∀ c ∈ childAddrs ((cleanHeap banned fuel h a).mem x),
          lo ≤ c ∧ c < hi) := by
  match fuel with
  | 0 =>
    simp only [cleanHeap]
    exact ⟨fun b _ => by trivial, by trivial, hcl⟩
  | fuel + 1 =>
    simp only [cleanHeap]
    cases hm : h.mem a with
    | hobj ents =>
      dsimp only
      set ents1 := ents.filter (fun e => !(banned.contains e.1)) with hents1
      set h1 := setMem h a (.hobj ents1) with hh1
      have hm1 : ∀ b, b ≠ a → h1.mem b = h.mem b := by
        intro b hb
        show (if b = a then HNode.hobj ents1 else h.mem b) = h.mem b
        rw [if_neg hb]
      have hma : h1.mem a = .hobj ents1 := by
        show (if a = a then HNode.hobj ents1 else h.mem a) = .hobj ents1
        rw [if_pos rfl]
      have hn1 : h1.next = h.next := rfl
      have hcl1 : ∀ x, lo ≤ x → x < hi →
          ∀ c ∈ childAddrs (h1.mem x), lo ≤ c ∧ c < hi := by
        intro x hx1 hx2 c hc
        by_cases hxa : x = a
        · subst hxa
          rw [hma] at hc
          have : c ∈ childAddrs (h.mem x) := by
            rw [hm]
            exact filter_children_subset ents _ c hc
          exact hcl x hx1 hx2 c this
        · rw [hm1 x hxa] at hc
          exact hcl x hx1 hx2 c hc
      have hout1 : ∀ b, b < lo ∨ hi ≤ b → h1.mem b = h.mem b := by
        intro b hb
        exact hm1 b (by omega)
      have hstage2 :
          (∀ b, b < lo ∨ hi ≤ b →
            (match lookupAddr ents1 "properties" with
              | some p =>
                match h1.mem p with
                | .hobj pents => cleanHeapList banned fuel h1 (pents.map Prod.snd)
                | .harr addrs => cleanHeapList banned fuel h1 addrs
                | _ => h1
              | none => h1).mem b = h1.mem b)
          ∧ (match lookupAddr ents1 "properties" with
              | some p =>
                match h1.mem p with
                | .hobj pents => cleanHeapList banned fuel h1 (pents.map Prod.snd)
                | .harr addrs => cleanHeapList banned fuel h1 addrs
                | _ => h1
              | none => h1).next = h1.next
          ∧ (∀ x, lo ≤ x → x < hi →
              ∀ c ∈ childAddrs ((match lookupAddr ents1 "properties" with
                | some p =>
                  match h1.mem p with
                  | .hobj pents => cleanHeapList banned fuel h1 (pents.map Prod.snd)
                  | .harr addrs => cleanHeapList banned fuel h1 addrs
                  | _ => h1
                | none => h1).mem x), lo ≤ c ∧ c < hi) := by
        cases hlp : lookupAddr ents1 "properties" with
        | none => exact ⟨fun b _ => by trivial, by trivial, hcl1⟩
        | some p =>
          dsimp only
          have hp : lo ≤ p ∧ p < hi := by
            have hpc : p ∈ childAddrs (h1.mem a) := by
              rw [hma]
              exact lookupAddr_mem ents1 "properties" p hlp
            exact hcl1 a ha1 ha2 p hpc
          cases hmp : h1.mem p with
          | hobj pents =>
            dsimp only
            have hkids : ∀ c ∈ pents.map Prod.snd, lo ≤ c ∧ c < hi := by
              intro c hc
              have : c ∈ childAddrs (h1.mem p) := by rw [hmp]; exact hc
              exact hcl1 p hp.1 hp.2 c this
            exact cleanHeapList_frame banned fuel h1 (pents.map Prod.snd)
              lo hi hcl1 hkids
          | harr addrs =>
            dsimp only
            have hkids : ∀ c ∈ addrs, lo ≤ c ∧ c < hi := by
              intro c hc
              have : c ∈ childAddrs (h1.mem p) := by rw [hmp]; exact hc
              exact hcl1 p hp.1 hp.2 c this
            exact cleanHeapList_frame banned fuel h1 addrs lo hi hcl1 hkids
          | hnull => exact ⟨fun b _ => by trivial, by trivial, hcl1⟩
          | hbool b => exact ⟨fun b _ => by trivial, by trivial, hcl1⟩
          | hnum n => exact ⟨fun b _ => by trivial, by trivial, hcl1⟩
          | hstr s => exact ⟨fun b _ => by trivial, by trivial, hcl1⟩
      obtain ⟨hout2, hn2, hcl2⟩ := hstage2
      generalize hH2 : (match lookupAddr ents1 "properties" with
        | some p =>
          match h1.mem p with
          | .hobj pents => cleanHeapList banned fuel h1 (pents.map Prod.snd)
          | .harr addrs => cleanHeapList banned fuel h1 addrs
          | _ => h1
        | none => h1) = H2 at hout2 hn2 hcl2 ⊢
      have hstage3 :
          (∀ b, b < lo ∨ hi ≤ b →
            (match lookupAddr ents1 "items" with
              | some it =>
                if truthyNode (H2.mem it) then cleanHeap banned fuel H2 it
                else H2
              | none => H2).mem b = H2.mem b)
          ∧ (match lookupAddr ents1 "items" with
              | some it =>
                if truthyNode (H2.mem it) then cleanHeap banned fuel H2 it
                else H2
              | none => H2).next = H2.next
          ∧ (∀ x, lo ≤ x → x < hi →
              ∀ c ∈ childAddrs ((match lookupAddr ents1 "items" with
                | some it =>
                  if truthyNode (H2.mem it) then cleanHeap banned fuel H2 it
                  else H2
                | none => H2).mem x), lo ≤ c ∧ c < hi) := by
        cases hli : lookupAddr ents1 "items" with
        | none => exact ⟨fun b _ => by trivial, by trivial, hcl2⟩
        | some it =>
          dsimp only
          have hit : lo ≤ it ∧ it < hi := by
            have hitc : it ∈ childAddrs (h1.mem a) := by
              rw [hma]
              exact lookupAddr_mem ents1 "items" it hli
            have := hcl1 a ha1 ha2 it hitc
            exact this
          by_cases htr : truthyNode (H2.mem it) = true
          · rw [if_pos htr]
            exact cleanHeap_frame banned fuel H2 it lo hi hcl2 hit.1 hit.2
          · rw [if_neg htr]
            exact ⟨fun b _ => by trivial, by trivial, hcl2⟩
      obtain ⟨hout3, hn3, hcl3⟩ := hstage3
      refine ⟨?_, ?_, hcl3⟩
      · intro b hb
        rw [hout3 b hb, hout2 b hb]
        exact hout1 b hb
      · rw [hn3, hn2]
        exact hn1
    | hnull =>
      dsimp only
      exact ⟨fun b _ => by trivial, by trivial, hcl⟩
    | hbool b =>
      dsimp only
      exact ⟨fun b _ => by trivial, by trivial, hcl⟩
    | hnum n =>
      dsimp only
      exact ⟨fun b _ => by trivial, by trivial, hcl⟩
    | hstr s =>
      dsimp only
      exact ⟨fun b _ => by trivial, by trivial, hcl⟩
    | harr xs =>
      dsimp only
      exact ⟨fun b _ => by trivial, by trivial, hcl⟩
termination_by (fuel, 0)

theorem cleanHeapList_frame (banned : List String) (fuel : Nat) (h : Heap)
    (addrs : List Nat) (lo hi : Nat)
    (hcl : ∀ x, lo ≤ x → x < hi →
      ∀ c ∈ childAddrs (h.mem x), lo ≤ c ∧ c < hi)
    (haddrs : ∀ a ∈ addrs, lo ≤ a ∧ a < hi) :
    (∀ b, b < lo ∨ hi ≤ b →
      (cleanHeapList banned fuel h addrs).mem b = h.mem b)
    ∧ (cleanHeapList banned fuel h addrs).next = h.next
    ∧ (∀ x, lo ≤ x → x < hi →
        ∀ c ∈ childAddrs ((cleanHeapList banned fuel h addrs).mem x),
          lo ≤ c ∧ c < hi) := by
  match addrs with
  | [] =>
    simp only [cleanHeapList]
    exact ⟨fun b _ => by trivial, by trivial, hcl⟩
  | a :: rest =>
    simp only [cleanHeapList]
    have ha := haddrs a (List.mem_cons_self a rest)
    obtain ⟨o1, n1, c1⟩ := cleanHeap_frame banned fuel h a lo hi hcl ha.1 ha.2
    obtain ⟨o2, n2, c2⟩ := cleanHeapList_frame banned fuel
      (cleanHeap banned fuel h a) rest lo hi c1
      (fun a' ha' => haddrs a' (List.mem_cons_of_mem _ ha'))
    refine ⟨?_, ?_, c2⟩
    · intro b hb
      rw [o2 b hb]
      exact o1 b hb
    · rw [n2]
      exact n1
termination_by (fuel, addrs.length + 1)

end

/-- The heap-level model of `cleanOpenAISchema`/`cleanWorkerAISchema`
applied to the value at an input reference:
`JSON.parse(JSON.stringify(schema))` allocates a fresh tree for the
argument's value (`encode`), and the recursive `clean` then mutates that
copy in place; the copy's root is returned. -/
def cleanSchemaCopyHeap (banned : List String) (fuel : Nat) (h : Heap)
    (v : Json) : Heap × Nat :=
  let p := encode v h
  (cleanHeap banned fuel p.1 p.2, p.2)

/-- C10: the schema normalizers never mutate their argument.  For any heap
`h` in which address `a` represents the input schema value `v`, running the
OpenAI or Worker AI normalizer (deep copy, then in-place clean of the copy)
leaves every pre-existing node unchanged, so the argument still represents
exactly `v`; and the returned root is a fresh node from which only fresh
nodes are reachable — the result shares no node with the input. -/
theorem schema_normalizers_do_not_mutate_argument :
    ∀ (fuel : Nat) (h : Heap) (a : Nat) (v : Json),
      Represents h a v →
      ((∀ b, b < h.next →
          (cleanSchemaCopyHeap openAIBannedKeys fuel h v).1.mem b = h.mem b)
        ∧ Represents (cleanSchemaCopyHeap openAIBannedKeys fuel h v).1 a v
        ∧ h.next ≤ (cleanSchemaCopyHeap openAIBannedKeys fuel h v).2
        ∧ (∀ b, ReachableHeap (cleanSchemaCopyHeap openAIBannedKeys fuel h v).1
              (cleanSchemaCopyHeap openAIBannedKeys fuel h v).2 b →
            h.next ≤ b))
      ∧ ((∀ b, b < h.next →
          (cleanSchemaCopyHeap workerAIBannedKeys fuel h v).1.mem b = h.mem b)
        ∧ Represents (cleanSchemaCopyHeap workerAIBannedKeys fuel h v).1 a v
        ∧ h.next ≤ (cleanSchemaCopyHeap workerAIBannedKeys fuel h v).2
        ∧ (∀ b, ReachableHeap (cleanSchemaCopyHeap workerAIBannedKeys fuel h v).1
              (cleanSchemaCopyHeap workerAIBannedKeys fuel h v).2 b →
            h.next ≤ b)) := by
  have key : ∀ (banned : List String) (fuel : Nat) (h : Heap) (a : Nat)
      (v : Json), Represents h a v →
      (∀ b, b < h.next →
          (cleanSchemaCopyHeap banned fuel h v).1.mem b = h.mem b)
      ∧ Represents (cleanSchemaCopyHeap banned fuel h v).1 a v
      ∧ h.next ≤ (cleanSchemaCopyHeap banned fuel h v).2
      ∧ (∀ b, ReachableHeap (cleanSchemaCopyHeap banned fuel h v).1
            (cleanSchemaCopyHeap banned fuel h v).2 b →
          h.next ≤ b) := by
    intro banned fuel h a v hrep
    obtain ⟨m1, p1, r1, r2, c1⟩ := encode_spec v h
    obtain ⟨o2, n2, c2⟩ := cleanHeap_frame banned fuel (encode v h).1
      (encode v h).2 h.next (encode v h).1.next c1 r1 r2
    have e1 : (cleanSchemaCopyHeap banned fuel h v).1
        = cleanHeap banned fuel (encode v h).1 (encode v h).2 := rfl
    have e2 : (cleanSchemaCopyHeap banned fuel h v).2 = (encode v h).2 := rfl
    rw [e1, e2]
    have hpres : ∀ b, b < h.next →
        (cleanHeap banned fuel (encode v h).1 (encode v h).2).mem b
          = h.mem b := by
      intro b hb
      rw [o2 b (Or.inl hb)]
      exact p1 b hb
    refine ⟨hpres, ?_, r1, ?_⟩
    · apply represents_mono h _ ?_ hpres a v hrep
      rw [n2]
      exact m1
    · intro b hrb
      exact (reachable_in_region
        (cleanHeap banned fuel (encode v h).1 (encode v h).2)
        h.next (encode v h).1.next (encode v h).2 c2 ⟨r1, r2⟩ b hrb).1
  exact fun fuel h a v hrep =>
    ⟨key openAIBannedKeys fuel h a v hrep,
     key workerAIBannedKeys fuel h a v hrep⟩

/-- A concrete two-node heap: address 0 holds an object with a `$schema`
member pointing at the string node at address 1. -/
def witnessHeap : Heap :=
  { mem := fun b =>
      if b = 0 then .hobj [("$schema", 1)]
      else if b = 1 then .hstr "x"
      else .hnull,
    next := 2 }

theorem schema_normalizers_no_mutation_witness :
    (cleanSchemaCopyHeap openAIBannedKeys 2 witnessHeap
        (.obj [("$schema", .str "x")])).1.mem 0 = witnessHeap.mem 0
    ∧ witnessHeap.next ≤ (cleanSchemaCopyHeap openAIBannedKeys 2 witnessHeap
        (.obj [("$schema", .str "x")])).2 := by
  have hrep : Represents witnessHeap 0 (.obj [("$schema", .str "x")]) := by
    refine ⟨by decide, [("$schema", 1)], rfl, ?_⟩
    exact ⟨rfl, ⟨by decide, rfl⟩, trivial⟩
  have h := (schema_normalizers_do_not_mutate_argument 2 witnessHeap 0
    (.obj [("$schema", .str "x")]) hrep).1
  exact ⟨h.1 0 (by decide), h.2.2.1⟩
